import Mathlib

/-!
Verification of the backend-orchestration core of a multi-engine chess
analysis service (FastAPI application `main.py`, helper `stockfish_js.py`).

The Python source is shallowly embedded:
* pure helpers (`clean_move_format`, the ensemble tally, score arithmetic,
  `calculate_winning_chances`, the heuristic move selector) become Lean
  functions over `List Char`/`String`, `Int` and `Rat`;
* external effects (the python-chess board, HTTP responses of the remote
  services, the local engine process, the random source) become explicit
  parameters holding the observed outcome of each call, so that every code
  path of the orchestration layer is a total Lean function of those inputs;
* the `asyncio.wait(..., return_when=FIRST_COMPLETED, timeout=10)` race is
  embedded as a function over tasks carrying an optional completion time and
  an optional produced value (a task that never completes has time `none`).
  Iteration over the `done` set is determinised as list order.

Python `float` arithmetic in the ensemble-confidence and winning-chances
computations is modelled over `ℚ`; every value proved about below is an
exact one-decimal quantity on which the two semantics agree.  Python
`round(x, 1)` (round-half-to-even) is modelled by `pyRound1`.
-/

namespace ChessApi

/-! ## String utilities (Python `str.split()`, `str.strip()`, prefix test) -/

/-- Whitespace splitter on char lists: accumulator-based model of Python
`str.split()` with no argument (splits on whitespace runs, drops empty
pieces).  `acc` holds the current token, reversed. -/
def splitWsAux : List Char → List Char → List (List Char)
  | [], [] => []
  | [], acc => [acc.reverse]
  | c :: rest, acc =>
    if c.isWhitespace then
      match acc with
      | [] => splitWsAux rest []
      | _ :: _ => acc.reverse :: splitWsAux rest []
    else splitWsAux rest (c :: acc)

/-- Python `s.split()`: whitespace-delimited tokens of `s`. -/
def pyTokens (s : String) : List String :=
  (splitWsAux s.data []).map String.mk

/-- Python `s.strip()`: drop leading and trailing whitespace. -/
def pyStrip (s : String) : String :=
  String.mk (((s.data.dropWhile Char.isWhitespace).reverse.dropWhile
    Char.isWhitespace).reverse)

/-- Boolean list-level check that `p` is an initial segment of `s`. -/
def listStartsWith : List Char → List Char → Bool
  | [], _ => true
  | _ :: _, [] => false
  | a :: as, b :: bs => a = b && listStartsWith as bs

/-- Python `s.startswith(p)`. -/
def pyStartsWith (p s : String) : Bool :=
  listStartsWith p.data s.data

/-! ## `clean_move_format` (main.py lines 526-550) -/

/-- The shape `clean_move_format` checks on bare tokens: 4 or 5 characters
with characters 1-4 being letter, digit, letter, digit (Python
`str.isalpha`/`str.isdigit`; the embedding covers the ASCII alphabet the
program actually handles).  The fifth character, when present, is not
inspected.  `true` on `"e2e4"`, `"e7e8q"`; `false` on `"xyz"`. -/
def bareFormatB (t : String) : Bool :=
  match t.data with
  | [a, b, c, d] => a.isAlpha && b.isDigit && c.isAlpha && d.isDigit
  | [a, b, c, d, _] => a.isAlpha && b.isDigit && c.isAlpha && d.isDigit
  | _ => false

/-- The bare-token branch of `clean_move_format`: a stripped token is
returned unchanged when it passes the 4/5-character shape check, and the
failure value `""` otherwise. -/
def bareClean (t : String) : String :=
  if bareFormatB t then t else ""

/-- `clean_move_format(raw_move)`: empty input yields `""` (the failure
value); input starting with `"bestmove "` yields the second whitespace
token, unvalidated, when one exists; otherwise the input is stripped and
validated by `bareClean`. -/
def cleanMoveFormat (raw : String) : String :=
  if raw = "" then ""
  else if pyStartsWith "bestmove " raw ∧ (pyTokens raw).length ≥ 2 then
    (pyTokens raw).getD 1 ""
  else
    bareClean (pyStrip raw)

/-! ## Python `round(x, 1)` over ℚ -/

/-- Round-half-to-even to an integer, Python's `round` policy. -/
def roundHalfEven (q : ℚ) : ℤ :=
  let f : ℤ := ⌊q⌋
  let r : ℚ := q - f
  if r < 1/2 then f
  else if 1/2 < r then f + 1
  else if f % 2 = 0 then f else f + 1

/-- Python `round(x, 1)` over ℚ.  All values this development rounds are
exact one-decimal quantities, on which float and rational rounding agree. -/
def pyRound1 (q : ℚ) : ℚ := (roundHalfEven (10 * q) : ℚ) / 10

/-! ## Data model

`MoveResult` embeds the result dicts built by the analysis functions
(`best_move`, `evaluation {cp, mate}`, `engine_used`, `depth_reached`,
`best_line`).  The wall-clock `analysis_time` field is not modelled; no
claim concerns it. -/

/-- The `evaluation` dict `{"cp": int | None, "mate": int | None}`. -/
structure EvalCM where
  cp : Option Int
  mate : Option Int
deriving DecidableEq, Repr

/-- Exactly one of `cp`/`mate` is non-null (spec invariant for
`AnalysisResult.evaluation`). -/
def exactlyOneCM (e : EvalCM) : Prop :=
  (e.cp.isSome ∧ e.mate = none) ∨ (e.cp = none ∧ e.mate.isSome)

instance : DecidablePred exactlyOneCM := fun e => by
  unfold exactlyOneCM; infer_instance

/-- An analysis result dict as returned by the engine functions in
`main.py`. -/
structure MoveResult where
  best_move : String
  eval : EvalCM
  engine_used : String
  depth_reached : Nat
  best_line : List String
deriving DecidableEq, Repr

/-- The score object extracted from a `chess.engine` info dict:
either a centipawn score or a mate announcement. -/
inductive Score where
  | cp (v : Int)
  | mate (v : Int)
deriving DecidableEq, Repr

/-- One observed local-engine `analyse` call: principal variation (already
rendered as UCI strings, `str(move)`) and optional score.  An
exception/timeout of the call is modelled by passing `none` for the whole
`EngineInfo`. -/
structure EngineInfo where
  pv : List String
  score : Option Score
deriving DecidableEq, Repr

/-- `info.get("score", PovScore(Cp(0), WHITE))` followed by the
`is_mate()` dispatch of `main.py`: mate scores give `{cp: None, mate: m}`,
centipawn scores give `{cp: v, mate: None}`. -/
def evalOfScore (s : Option Score) : EvalCM :=
  match s.getD (Score.cp 0) with
  | .mate m => ⟨none, some m⟩
  | .cp c => ⟨some c, none⟩

/-- Values of the global `engines` dict: a native `chess.engine` handle
(the only value with an `analyse` attribute) or one of the string tags the
source stores/compares against. -/
inductive EngineVal where
  | native
  | tagUnavailable
  | tagStockfishJs
  | tagBackup
  | tagRandom
deriving DecidableEq, Repr

/-- Lookup in the `engines` dict, modelled as an association list. -/
def lookupCfg (cfg : List (String × EngineVal)) (k : String) :
    Option EngineVal :=
  (cfg.find? (fun p => p.1 = k)).map Prod.snd

/-- Internal exceptions of the analysis functions. -/
inductive EngErr where
  | noLegalMoves   -- `Exception("No legal moves available")`
  | noEngine       -- `Exception("No Stockfish engine available")`
deriving DecidableEq, Repr

/-- Errors surfaced to the HTTP caller. -/
inductive ApiErr where
  | invalidPosition     -- HTTP 400 `Invalid FEN`
  | analysisFailed      -- HTTP 500 `Analysis failed`
  | allBackendsFailed   -- HTTP 500 `All engines failed`
deriving DecidableEq, Repr

/-! ## Remote backend adapters (`try_lichess`, `try_chessdb`,
`try_stockfish_online` in `try_online_stockfish`, main.py lines 600-678)

Each adapter is a function of the observed HTTP outcome: `none` models a
non-200 status, timeout, or network error (all swallowed by the
`except` clause, which returns `None`). -/

/-- One entry of the Lichess cloud-eval `pvs` array; `none` fields model
absent JSON keys. -/
structure LichessPv where
  moves : Option String
  cp : Option Int
  mate : Option Int
deriving DecidableEq, Repr

/-- Parsed Lichess cloud-eval body; a missing `pvs` key is modelled by an
empty list. -/
structure LichessData where
  pvs : List LichessPv
deriving DecidableEq, Repr

/-- `try_lichess`: on a 200 response with a non-empty `pvs[0].moves`,
extract the first token, normalise it, and build the result.  Note
`"cp": pv.get("cp", 0)` always stores a non-null cp, while `mate` is
passed through. -/
def tryLichess (resp : Option LichessData) (depth : Nat) : Option MoveResult :=
  match resp with
  | none => none
  | some data =>
    match data.pvs.head? with
    | none => none
    | some pv =>
      match pv.moves with
      | none => none
      | some mstr =>
        if mstr = "" then none
        else
          match pyTokens mstr with
          | [] => none   -- `split()[0]` raises IndexError, caught → None
          | raw :: _ =>
            let clean := cleanMoveFormat raw
            if clean = "" then none
            else some
              { best_move := clean
                eval := ⟨some (pv.cp.getD 0), pv.mate⟩
                engine_used := "lichess_cloud"
                depth_reached := depth
                best_line := (pyTokens mstr).take 3 }

/-- Parsed ChessDB `querypv` body. -/
structure ChessdbData where
  pv : Option String
  score : Option Int
deriving DecidableEq, Repr

/-- `try_chessdb`: strip and split the `pv` field, normalise the first
token; `mate` is always null on this path. -/
def tryChessdb (resp : Option ChessdbData) (depth : Nat) : Option MoveResult :=
  match resp with
  | none => none
  | some data =>
    match data.pv with
    | none => none
    | some pvs =>
      if pvs = "" then none
      else
        match pyTokens (pyStrip pvs) with
        | [] => none
        | raw :: rest =>
          let clean := cleanMoveFormat raw
          if clean = "" then none
          else some
            { best_move := clean
              eval := ⟨some (data.score.getD 0), none⟩
              engine_used := "chessdb"
              depth_reached := depth
              best_line := (raw :: rest).take 3 }

/-- Parsed stockfish.online body. -/
structure SfoData where
  bestmove : Option String
  evaluation : Option Int
deriving DecidableEq, Repr

/-- `try_stockfish_online`: normalise the `bestmove` field (which this
service returns in full `"bestmove x ponder y"` form); `mate` is always
null on this path. -/
def tryStockfishOnline (resp : Option SfoData) (depth : Nat) :
    Option MoveResult :=
  match resp with
  | none => none
  | some data =>
    match data.bestmove with
    | none => none
    | some bm =>
      if bm = "" then none
      else
        let clean := cleanMoveFormat bm
        if clean = "" then none
        else some
          { best_move := clean
            eval := ⟨some (data.evaluation.getD 0), none⟩
            engine_used := "stockfish_online"
            depth_reached := depth
            best_line := [clean] }

/-! ## The parallel race (`asyncio.wait(..., FIRST_COMPLETED, timeout=10)`,
main.py lines 680-715)

A task is abstracted by its completion time (`none` if it never completes)
and the value its coroutine returns (the adapter coroutines catch every
exception and return `None`, modelled by `result = none`). -/

/-- An asynchronous task, abstracted to its observable behaviour. -/
structure RTask (α : Type) where
  time : Option Nat
  result : Option α
deriving DecidableEq, Repr

/-- Minimum of a list of naturals, `none` on the empty list. -/
def minTime? (l : List Nat) : Option Nat :=
  l.foldl (fun acc t =>
    match acc with
    | none => some t
    | some m => some (Nat.min m t)) none

/-- The earliest completion time of any task within the overall ceiling
(`asyncio.wait` returns as soon as the first task completes; with a
timeout it returns empty `done` if nothing completed in time). -/
def firstDoneTime {α : Type} (tasks : List (RTask α)) (ceil : Nat) :
    Option Nat :=
  minTime? (((tasks.filterMap RTask.time).filter (· ≤ ceil)))

/-- The value returned by the `try_online_stockfish` race block: await the
first completion, cancel the rest, then scan the `done` set for a non-None
result (set iteration determinised as list order).  A first-completed task
returning `None` therefore yields `none` overall even when a later task
would have succeeded. -/
def race {α : Type} (tasks : List (RTask α)) (ceil : Nat) : Option α :=
  match firstDoneTime tasks ceil with
  | none => none
  | some tmin =>
    ((tasks.filter (fun t => t.time = some tmin)).filterMap RTask.result).head?

/-- The tasks cancelled by the race block: everything still pending when
the first completion (or the ceiling) is observed. -/
def raceCancelled {α : Type} (tasks : List (RTask α)) (ceil : Nat) :
    List (RTask α) :=
  match firstDoneTime tasks ceil with
  | none => tasks
  | some tmin => tasks.filter (fun t => ¬t.time = some tmin)

/-! ## Chess-side model

`python-chess` is an external library; the pieces of its behaviour the
heuristic uses (`piece_at`, `is_capture`, `push`/`is_check`, square
arithmetic, legal-move generation) are modelled by an abstract `Board`
carrying those observations, plus a `Move` type mirroring `chess.Move`
(from/to squares 0-63 in python-chess numbering, optional promotion). -/

inductive PieceType where
  | pawn | knight | bishop | rook | queen | king
deriving DecidableEq, Repr

structure Piece where
  ptype : PieceType
  white : Bool
deriving DecidableEq, Repr

structure Move where
  fromSq : Nat
  toSq : Nat
  promo : Option PieceType := none
deriving DecidableEq, Repr

/-- Abstract board: the outcomes of the python-chess calls made by
`select_smart_move` and `evaluate_position`.  `pushedIsCapture m` models
the source's `board.is_capture(move)` call made *after* `board.push(move)`
(the check-bonus guard inspects the pushed board). -/
structure Board where
  pieceAt : Nat → Option Piece
  turn : Bool                     -- true ↔ chess.WHITE
  isCapture : Move → Bool
  givesCheck : Move → Bool        -- push m; is_check()
  pushedIsCapture : Move → Bool   -- push m; is_capture(m)

/-- `piece_values` table of `select_smart_move` (centipawn-scaled). -/
def pieceValue : PieceType → Int
  | .pawn => 100
  | .knight => 300
  | .bishop => 300
  | .rook => 500
  | .queen => 900
  | .king => 10000

/-- `piece_values` table of `evaluate_position` (pawn units). -/
def materialValue : PieceType → Int
  | .pawn => 1
  | .knight => 3
  | .bishop => 3
  | .rook => 5
  | .queen => 9
  | .king => 0

/-- Square names `"a1"`..`"h8"` in python-chess numbering. -/
def squareName (sq : Nat) : String :=
  String.mk [Char.ofNat (97 + sq % 8), Char.ofNat (49 + sq / 8)]

/-- Promotion letter used by `chess.Move.uci()`. -/
def promoChar : PieceType → String
  | .knight => "n"
  | .bishop => "b"
  | .rook => "r"
  | .queen => "q"
  | .pawn => "p"
  | .king => "k"

/-- `str(move)` on a `chess.Move`: UCI rendering. -/
def uciString (m : Move) : String :=
  squareName m.fromSq ++ squareName m.toSq ++
    (match m.promo with
     | some p => promoChar p
     | none => "")

/-! ## The heuristic backup engine (`select_smart_move`,
`evaluate_position`, `analyze_with_backup`, main.py lines 977-1136) -/

/-- The per-move score of `select_smart_move`, before the random jitter:
capture gain `// 10` or a −200 sacrifice penalty, +30 check bonus (guarded
by the post-push `is_capture` call), +20 centre bonus, +25 development
bonus for knights/bishops leaving the back rank, −5 edge penalty. -/
def moveScore (b : Board) (m : Move) : Int :=
  let s1 : Int :=
    if b.isCapture m then
      match b.pieceAt m.toSq, b.pieceAt m.fromSq with
      | some cap, some mov =>
        let gain : Int := pieceValue cap.ptype - pieceValue mov.ptype
        if gain ≥ 0 then gain / 10 else -200
      | _, _ => 0
    else 0
  let s2 :=
    if b.givesCheck m then
      if !b.pushedIsCapture m || s1 ≥ 0 then s1 + 30 else s1
    else s1
  let f := m.toSq % 8
  let r := m.toSq / 8
  let s3 := if (f = 3 ∨ f = 4) ∧ (r = 3 ∨ r = 4) then s2 + 20 else s2
  let s4 :=
    match b.pieceAt m.fromSq with
    | some p =>
      if (p.ptype = .knight ∨ p.ptype = .bishop) ∧
          ((p.white ∧ m.fromSq / 8 = 0) ∨ (!p.white ∧ m.fromSq / 8 = 7)) then
        s3 + 25
      else s3
    | none => s3
  if f = 0 ∨ f = 7 ∨ r = 0 ∨ r = 7 then s4 - 5 else s4

/-- First pair attaining the maximal second component; models Python
`max(iterable, key=...)`, which keeps the current maximum on ties and so
returns the first maximal element in iteration order. -/
def argmaxFirst {α β : Type} [LinearOrder β] :
    List (α × β) → Option (α × β)
  | [] => none
  | p :: rest =>
    match argmaxFirst rest with
    | none => some p
    | some q => if q.2 > p.2 then some q else some p

/-- `select_smart_move(board, legal_moves)`: score every legal move (with
the caller-supplied jitter standing for `random.randint(1, 5)`), keep the
moves scoring above the −100 blunder threshold when any exist, and return
the first maximal-scoring move. -/
def selectSmartMove (b : Board) (jitter : Move → Int) (legal : List Move) :
    Option Move :=
  let scores := legal.map (fun m => (m, moveScore b m + jitter m))
  let good := scores.filter (fun p => p.2 > -100)
  match argmaxFirst good with
  | some p => some p.1
  | none => (argmaxFirst scores).map Prod.fst

/-- `evaluate_position(board)`: material difference in centipawns from the
side to move's perspective. -/
def evaluatePosition (b : Board) : Int :=
  let tally := (List.range 64).foldl
    (fun acc sq =>
      match b.pieceAt sq with
      | some p =>
        if p.white then (acc.1 + materialValue p.ptype, acc.2)
        else (acc.1, acc.2 + materialValue p.ptype)
      | none => acc)
    ((0 : Int), (0 : Int))
  let diff := (tally.1 - tally.2) * 100
  if b.turn then diff else -diff

/-- The opening book of `analyze_with_backup`. -/
def openingBook : List (String × String) :=
  [("rnbqkbnr/pppppppp/8/8/8/8/PPPPPPPP/RNBQKBNR w KQkq - 0 1", "e2e4"),
   ("rnbqkbnr/pppppppp/8/8/4P3/8/PPPP1PPP/RNBQKBNR b KQkq e3 0 1", "e7e5"),
   ("rnbqkbnr/pppp1ppp/8/4p3/4P3/8/PPPP1PPP/RNBQKBNR w KQkq e6 0 2", "g1f3"),
   ("rnbqkbnr/pppppppp/8/8/3P4/8/PPP1PPPP/RNBQKBNR b KQkq d3 0 1", "d7d5"),
   ("rnbqkbnr/ppp1pppp/8/3p4/3P4/8/PPP1PPPP/RNBQKBNR w KQkq d6 0 2", "c2c4"),
   ("rnbqkbnr/pp1ppppp/8/2p5/4P3/8/PPPP1PPP/RNBQKBNR w KQkq c6 0 2", "g1f3"),
   ("rnbqkbnr/pppp1ppp/4p3/8/4P3/8/PPPP1PPP/RNBQKBNR w KQkq - 0 2", "d2d4"),
   ("rnbqkbnr/pp1ppppp/2p5/8/4P3/8/PPPP1PPP/RNBQKBNR w KQkq - 0 2", "d2d4")]

/-- Book lookup (`fen in opening_book`). -/
def lookupBook (fen : String) : Option String :=
  (openingBook.find? (fun p => p.1 = fen)).map Prod.snd

/-- `analyze_with_backup(board)`: exact-FEN book hit first (reported at
depth 15), otherwise fail on an empty legal-move list, otherwise the
smart-move selection (reported at depth 12). -/
def analyzeWithBackup (fen : String) (b : Board) (jitter : Move → Int)
    (legal : List Move) : Except EngErr MoveResult :=
  match lookupBook fen with
  | some mv =>
    .ok { best_move := mv, eval := ⟨some 30, none⟩,
          engine_used := "enhanced_backup", depth_reached := 15,
          best_line := [mv] }
  | none =>
    if legal.isEmpty then .error .noLegalMoves
    else
      match selectSmartMove b jitter legal with
      | some m =>
        .ok { best_move := uciString m,
              eval := ⟨some (evaluatePosition b), none⟩,
              engine_used := "enhanced_backup", depth_reached := 12,
              best_line := [uciString m] }
      | none => .error .noLegalMoves  -- unreachable: legal is non-empty here

/-- `analyze_with_random(board)`: uniform choice among legal moves
(`choiceIdx`/`randEval` stand for the two `random` draws). -/
def analyzeWithRandom (choiceIdx : Nat) (randEval : Int)
    (legal : List Move) : Except EngErr MoveResult :=
  if legal.isEmpty then .error .noLegalMoves
  else
    let m := legal.getD (choiceIdx % legal.length) ⟨0, 0, none⟩
    .ok { best_move := uciString m, eval := ⟨some randEval, none⟩,
          engine_used := "random", depth_reached := 1,
          best_line := [uciString m] }

/-! ## Orchestration (`try_online_stockfish`, `analyze_with_stockfish`,
`get_best_move`, main.py lines 366-409, 552-715, 866-975)

The orchestration functions are parameterised over the observed outcomes of
every external call they can make: the two local-engine `analyse` attempts
(`emTry`, `nativeTry`), the three remote HTTP responses together with the
completion time of each raced coroutine, and the heuristic/random inputs.
Each function additionally returns the list of backend adapters it invoked,
so that "no backend is invoked" claims are statable. -/

/-- Observed outcomes of the three raced remote calls. -/
structure OnlineParams where
  lichessResp : Option LichessData
  lichessTime : Option Nat
  chessdbResp : Option ChessdbData
  chessdbTime : Option Nat
  sfoResp : Option SfoData
  sfoTime : Option Nat
deriving DecidableEq, Repr

/-- The result dict built from a successful local-engine `analyse` call
(`str(info["pv"][0])`, the score extraction, `pv[:3]`); `none` when the
principal variation is empty (`"No best move found"`). -/
def engineInfoResult (info : EngineInfo) (engineName : String) (d : Nat) :
    Option MoveResult :=
  (info.pv.head?).map (fun bm =>
    { best_move := bm
      eval := evalOfScore info.score
      engine_used := engineName
      depth_reached := d
      best_line := info.pv.take 3 })

/-- The local-engine attempt pattern shared by `try_online_stockfish` and
`analyze_with_stockfish`: only a configured native handle (the sole value
with an `analyse` attribute) can produce a result; an empty principal
variation or a failed call yields `none` and falls through. -/
def localTryResult (cfg : List (String × EngineVal))
    (attempt : Option EngineInfo) (n : String) (d : Nat) : Option MoveResult :=
  match lookupCfg cfg "stockfish" with
  | some .native => attempt.bind (fun info => engineInfoResult info n d)
  | _ => none   -- string tags have no `analyse`: AttributeError, caught

/-- `try_online_stockfish(fen, depth)`: a forced local-engine attempt first
(guarded by `engines["stockfish"]` being present and not one of the string
tags; a non-engine value raises `AttributeError`, caught and ignored),
then the three remote adapters raced with a 10-second ceiling. -/
def tryOnlineStockfish (cfg : List (String × EngineVal))
    (emTry : Option EngineInfo) (p : OnlineParams) (depth : Nat) :
    Option MoveResult × List String :=
  let localAttempted : Bool :=
    match lookupCfg cfg "stockfish" with
    | some v => v ≠ EngineVal.tagUnavailable && v ≠ EngineVal.tagStockfishJs
    | none => false
  let localResult :=
    localTryResult cfg emTry "stockfish_local_EMERGENCY" (Nat.min depth 12)
  let localLog : List String := if localAttempted then ["local_engine"] else []
  match localResult with
  | some r => (some r, localLog)
  | none =>
    let tasks : List (RTask MoveResult) :=
      [⟨p.lichessTime, tryLichess p.lichessResp depth⟩,
       ⟨p.chessdbTime, tryChessdb p.chessdbResp depth⟩,
       ⟨p.sfoTime, tryStockfishOnline p.sfoResp depth⟩]
    (race tasks 10, localLog ++ ["lichess", "chessdb", "stockfish_online"])

/-- `analyze_with_stockfish(board, depth, time_limit)`: guard on any engine
being configured, forced native attempt (depth capped at 12), the online
race, the dead `if False` Stockfish.js branch, the plain native attempt
(full requested depth), and finally the backup heuristic relabelled
`"EMERGENCY_BACKUP - APIs_FAILED"`.  The backup's `NoLegalMoves` exception
propagates to the caller. -/
def analyzeWithStockfish (cfg : List (String × EngineVal))
    (emTry : Option EngineInfo) (p : OnlineParams)
    (nativeTry : Option EngineInfo) (fen : String) (b : Board)
    (jitter : Move → Int) (legal : List Move) (depth : Nat) :
    Except EngErr MoveResult × List String :=
  if lookupCfg cfg "stockfish" = none ∧ lookupCfg cfg "stockfish_backup" = none
  then (.error .noEngine, [])
  else
    let emergency : Option MoveResult :=
      localTryResult cfg emTry "stockfish_local_EMERGENCY_BYPASS"
        (Nat.min depth 12)
    let emLog : List String :=
      if lookupCfg cfg "stockfish" = some .native then ["local_engine"] else []
    match emergency with
    | some r => (.ok r, emLog)
    | none =>
      let online := tryOnlineStockfish cfg emTry p depth
      match online.1 with
      | some r => (.ok r, emLog ++ online.2)
      | none =>
        -- `if False and ...` Stockfish.js branch: dead code, never taken
        let nativeResult : Option MoveResult :=
          localTryResult cfg nativeTry "stockfish_native" depth
        let natLog : List String :=
          if lookupCfg cfg "stockfish" = some .native then ["native"] else []
        match nativeResult with
        | some r => (.ok r, emLog ++ online.2 ++ natLog)
        | none =>
          ((analyzeWithBackup fen b jitter legal).map
            (fun r => { r with engine_used := "EMERGENCY_BACKUP - APIs_FAILED" }),
           emLog ++ online.2 ++ natLog ++ ["backup"])

/-- A `/api/v1/best-move` request (`fen`, `depth`, `engine`; the unused
`elo_limit`/`time_limit` knobs are omitted). -/
structure MoveRequest where
  fen : String
  depth : Nat := 15
  engine : String := "stockfish"
deriving DecidableEq, Repr

/-- Internal exceptions become the HTTP 500 `Analysis failed` error
(`get_best_move`'s catch-all). -/
def toApi (r : Except EngErr MoveResult) : Except ApiErr MoveResult :=
  match r with
  | .ok v => .ok v
  | .error _ => .error .analysisFailed

/-- `get_best_move(request)`: FEN validation first (`chess.Board(fen)`,
modelled by the `parse` oracle returning the canonical FEN of a valid
position and `none` on `ValueError`), then dispatch on the `engine` field:
`"random"` goes to the random engine; `"stockfish"`, `"ensemble"` and any
other name go to `analyze_with_stockfish` when either engine key is
configured and to the backup heuristic otherwise.  Returns the result (or
HTTP error) together with the list of invoked backend adapters. -/
def getBestMove (parse : String → Option String)
    (cfg : List (String × EngineVal)) (emTry : Option EngineInfo)
    (p : OnlineParams) (nativeTry : Option EngineInfo) (b : Board)
    (jitter : Move → Int) (legal : List Move) (choiceIdx : Nat)
    (randEval : Int) (req : MoveRequest) :
    Except ApiErr MoveResult × List String :=
  match parse req.fen with
  | none => (.error .invalidPosition, [])
  | some canonFen =>
    if req.engine = "random" then
      (toApi (analyzeWithRandom choiceIdx randEval legal), ["random"])
    else
      if (lookupCfg cfg "stockfish").isSome ∨
          (lookupCfg cfg "stockfish_backup").isSome then
        let a := analyzeWithStockfish cfg emTry p nativeTry canonFen b
          jitter legal req.depth
        (toApi a.1, a.2)
      else
        (toApi (analyzeWithBackup canonFen b jitter legal), ["backup"])

/-! ## Ensemble (`get_ensemble_analysis`, main.py lines 436-478) -/

/-- One collected engine result of the ensemble loop. -/
structure EnsVote where
  engine : String
  best_move : String
  evaluation : Int
  weight : ℚ
deriving DecidableEq, Repr

/-- The fixed weight table; unknown names default to 0.5. -/
def engineWeight (name : String) : ℚ :=
  if name = "stockfish" then 8/10
  else if name = "random" then 2/10
  else 5/10

/-- Sum weights per distinct move, preserving first-seen insertion order
(the Python dict `move_votes`). -/
def addVote (acc : List (String × ℚ)) (m : String) (w : ℚ) :
    List (String × ℚ) :=
  match acc with
  | [] => [(m, w)]
  | (m', w') :: rest =>
    if m' = m then (m', w' + w) :: rest else (m', w') :: addVote rest m w

/-- `move_votes`: the weight tally over the collected results. -/
def moveVotes (l : List (String × ℚ)) : List (String × ℚ) :=
  l.foldl (fun acc p => addVote acc p.1 p.2) []

/-- `max(move_votes, key=move_votes.get)`: highest-weight move, ties broken
by first-seen insertion order. -/
def ensembleConsensus (votes : List (String × ℚ)) : Option (String × ℚ) :=
  argmaxFirst votes

/-- `min(100, (move_votes[consensus] / len(results)) * 100)`, rounded to
one decimal. -/
def ensembleConfidence (w : ℚ) (n : Nat) : ℚ :=
  pyRound1 (min 100 ((w / n) * 100))

/-- An `/api/v1/ensemble` request. -/
structure EnsembleRequest where
  fen : String
  engines : List String := ["stockfish", "random"]
  depth : Nat := 12
deriving DecidableEq, Repr

/-- The ensemble response. -/
structure EnsembleResponse where
  consensus_move : String
  confidence : ℚ
  engine_results : List EnsVote
deriving DecidableEq, Repr

/-- The collection loop of `get_ensemble_analysis` (main.py lines
447-460): for each requested name present in the `engines` dict,
`get_best_move` is invoked.  The vote construction then reads
`result.engine_used`, `result.best_move` and
`result.evaluation.get("cp", 0)` — attribute accesses on the plain *dict*
that a direct call to `get_best_move` returns (the route decorator does
not wrap direct function calls), which raise `AttributeError` before
anything is appended.  The loop's `except Exception` swallows both this
and any analysis failure, so no iteration ever appends a vote. -/
def collectEnsemble (parse : String → Option String)
    (cfg : List (String × EngineVal)) (emTry : Option EngineInfo)
    (p : OnlineParams) (nativeTry : Option EngineInfo) (b : Board)
    (jitter : Move → Int) (legal : List Move) (choiceIdx : Nat)
    (randEval : Int) (fen : String) (depth : Nat) :
    List String → List EnsVote
  | [] => []
  | name :: rest =>
    let tail := collectEnsemble parse cfg emTry p nativeTry b jitter legal
      choiceIdx randEval fen depth rest
    if (lookupCfg cfg name).isSome then
      match (getBestMove parse cfg emTry p nativeTry b jitter legal choiceIdx
          randEval ⟨fen, depth, name⟩).1 with
      | .ok _ => tail     -- vote construction raises AttributeError: skipped
      | .error _ => tail  -- analysis failure: skipped
    else tail

/-- `get_ensemble_analysis(request)`: FEN validation, the collection loop,
the `All engines failed` guard on an empty collection, then the weighted
consensus and confidence. -/
def getEnsemble (parse : String → Option String)
    (cfg : List (String × EngineVal)) (emTry : Option EngineInfo)
    (p : OnlineParams) (nativeTry : Option EngineInfo) (b : Board)
    (jitter : Move → Int) (legal : List Move) (choiceIdx : Nat)
    (randEval : Int) (req : EnsembleRequest) :
    Except ApiErr EnsembleResponse :=
  match parse req.fen with
  | none => .error .invalidPosition
  | some _ =>
    let results := collectEnsemble parse cfg emTry p nativeTry b jitter legal
      choiceIdx randEval req.fen req.depth req.engines
    if results.isEmpty then .error .allBackendsFailed
    else
      match ensembleConsensus
          (moveVotes (results.map (fun v => (v.best_move, v.weight)))) with
      | some (m, w) =>
        .ok { consensus_move := m,
              confidence := ensembleConfidence w results.length,
              engine_results := results }
      | none => .error .allBackendsFailed  -- unreachable: results non-empty

/-! ## `calculate_winning_chances` (main.py lines 1167-1178) -/

/-- `calculate_winning_chances(evaluation)`: 100/0 on a non-null mate,
50 on a null cp, otherwise `max(0, min(100, round(50 + cp/100*10, 1)))`.
(The dicts reaching this function always carry both keys, so the
key-absent default of `evaluation.get("cp", 0)` coincides with
`cp = some 0`.) -/
def calculateWinningChances (ev : EvalCM) : ℚ :=
  match ev.mate with
  | some m => if m > 0 then 100 else 0
  | none =>
    match ev.cp with
    | none => 50
    | some cp =>
      let win : ℚ := 50 + ((cp : ℚ) / 100) * 10
      max 0 (min 100 (pyRound1 win))

/-! ## Equality of `Except` values is decidable (used by the concrete
counterexample computations). -/

instance {ε α : Type} [DecidableEq ε] [DecidableEq α] :
    DecidableEq (Except ε α) :=
  fun a b =>
    match a, b with
    | .ok x, .ok y => decidable_of_iff (x = y) (by simp)
    | .error x, .error y => decidable_of_iff (x = y) (by simp)
    | .ok _, .error _ => isFalse (by simp)
    | .error _, .ok _ => isFalse (by simp)

/-! ## Helper lemmas: tokens, the normalizer -/

/-- Every character of every token produced by `splitWsAux` is
non-whitespace, provided the accumulator is whitespace-free. -/
theorem splitWsAux_wsFree (l : List Char) :
    ∀ (acc : List Char), (∀ c ∈ acc, ¬c.isWhitespace = true) →
      ∀ t ∈ splitWsAux l acc, ∀ c ∈ t, ¬c.isWhitespace = true := by
  induction l with
  | nil =>
    intro acc hacc t ht c hc
    cases acc with
    | nil => simp [splitWsAux] at ht
    | cons a as =>
      simp only [splitWsAux, List.mem_singleton] at ht
      subst ht
      exact hacc c (List.mem_reverse.mp hc)
  | cons x xs ih =>
    intro acc hacc t ht c hc
    by_cases hx : x.isWhitespace
    · cases acc with
      | nil =>
        simp only [splitWsAux, hx, if_pos] at ht
        exact ih [] (by simp) t ht c hc
      | cons a as =>
        simp only [splitWsAux, hx, if_pos, List.mem_cons] at ht
        rcases ht with ht | ht
        · subst ht
          exact hacc c (List.mem_reverse.mp hc)
        · exact ih [] (by simp) t ht c hc
    · simp only [splitWsAux, hx, if_neg, Bool.false_eq_true,
        not_false_eq_true] at ht
      refine ih (x :: acc) ?_ t ht c hc
      intro d hd
      rcases List.mem_cons.mp hd with hd | hd
      · subst hd; simpa using hx
      · exact hacc d hd

/-- Tokens of `pyTokens` contain no whitespace characters. -/
theorem pyTokens_wsFree (s t : String) (ht : t ∈ pyTokens s) :
    ∀ c ∈ t.data, ¬c.isWhitespace = true := by
  rcases List.mem_map.mp ht with ⟨cs, hcs, rfl⟩
  exact fun c hc => splitWsAux_wsFree s.data [] (by simp) cs hcs c hc

/-- `listStartsWith p s = true` forces every character of `p` into `s`. -/
theorem listStartsWith_subset :
    ∀ (p s : List Char), listStartsWith p s = true → ∀ c ∈ p, c ∈ s := by
  intro p
  induction p with
  | nil => intro s _ c hc; simp at hc
  | cons a as ih =>
    intro s h c hc
    cases s with
    | nil => simp [listStartsWith] at h
    | cons b bs =>
      simp only [listStartsWith, Bool.and_eq_true, decide_eq_true_eq] at h
      rcases List.mem_cons.mp hc with hc | hc
      · exact List.mem_cons.mpr (Or.inl (hc.trans h.1))
      · exact List.mem_cons.mpr (Or.inr (ih bs h.2 c hc))

/-- A whitespace-free string cannot start with `"bestmove "`. -/
theorem pyStartsWith_bestmove_false (s : String)
    (hws : ∀ c ∈ s.data, ¬c.isWhitespace = true) :
    pyStartsWith "bestmove " s = false := by
  by_contra h
  have h' : pyStartsWith "bestmove " s = true := by
    cases hb : pyStartsWith "bestmove " s
    · exact absurd hb h
    · rfl
  have : (' ' : Char) ∈ s.data :=
    listStartsWith_subset _ _ h' ' ' (by decide)
  exact hws ' ' this (by decide)

/-- A non-empty output of `bareClean` is the input itself and passes the
shape check. -/
theorem bareClean_ne_empty (t : String) (h : bareClean t ≠ "") :
    bareClean t = t ∧ bareFormatB t = true := by
  unfold bareClean at h ⊢
  by_cases hf : bareFormatB t = true
  · simp [hf]
  · simp [hf] at h

/-- On input that does not start with `"bestmove "`, a non-empty output of
`clean_move_format` passes the 4/5-character shape check. -/
theorem cleanMoveFormat_bare (s : String)
    (hns : pyStartsWith "bestmove " s = false)
    (h : cleanMoveFormat s ≠ "") :
    cleanMoveFormat s = bareClean (pyStrip s) ∧
      bareFormatB (cleanMoveFormat s) = true := by
  have hform : cleanMoveFormat s = bareClean (pyStrip s) := by
    unfold cleanMoveFormat
    by_cases h0 : s = ""
    · subst h0; simp [pyStrip, bareClean, bareFormatB]
    · rw [if_neg h0, if_neg]
      intro hand
      rw [hns] at hand
      exact absurd hand.1 (by simp)
  refine ⟨hform, ?_⟩
  rw [hform] at h ⊢
  have hb := bareClean_ne_empty _ h
  rw [hb.1]
  exact hb.2

/-- A non-empty `clean_move_format` output on a whitespace-free input
passes the shape check (used for tokens extracted by `split()`). -/
theorem cleanMoveFormat_wsFree (s : String)
    (hws : ∀ c ∈ s.data, ¬c.isWhitespace = true)
    (h : cleanMoveFormat s ≠ "") :
    bareFormatB (cleanMoveFormat s) = true :=
  (cleanMoveFormat_bare s (pyStartsWith_bestmove_false s hws) h).2

/-! ## Helper lemmas: `argmaxFirst` -/

theorem argmaxFirst_eq_none_iff {α β : Type} [LinearOrder β]
    (l : List (α × β)) : argmaxFirst l = none ↔ l = [] := by
  cases l with
  | nil => simp [argmaxFirst]
  | cons p rest =>
    simp only [argmaxFirst]
    constructor
    · intro h
      cases hr : argmaxFirst rest with
      | none => rw [hr] at h; simp at h
      | some q => rw [hr] at h; by_cases hgt : q.2 > p.2 <;> simp [hgt] at h
    · intro h; simp at h

theorem argmaxFirst_mem {α β : Type} [LinearOrder β] :
    ∀ (l : List (α × β)) (p : α × β), argmaxFirst l = some p → p ∈ l := by
  intro l
  induction l with
  | nil => intro p h; simp [argmaxFirst] at h
  | cons x rest ih =>
    intro p h
    simp only [argmaxFirst] at h
    cases hr : argmaxFirst rest with
    | none => rw [hr] at h; simp at h; simp [h]
    | some q =>
      rw [hr] at h
      dsimp only at h
      by_cases hgt : q.2 > x.2
      · rw [if_pos hgt] at h
        simp at h; subst h
        exact List.mem_cons.mpr (Or.inr (ih q hr))
      · rw [if_neg hgt] at h
        simp at h; simp [h]

theorem argmaxFirst_le {α β : Type} [LinearOrder β] :
    ∀ (l : List (α × β)) (p : α × β), argmaxFirst l = some p →
      ∀ q ∈ l, q.2 ≤ p.2 := by
  intro l
  induction l with
  | nil => intro p h; simp [argmaxFirst] at h
  | cons x rest ih =>
    intro p h q hq
    simp only [argmaxFirst] at h
    cases hr : argmaxFirst rest with
    | none =>
      rw [hr] at h
      simp at h
      subst h
      have : rest = [] := (argmaxFirst_eq_none_iff rest).mp hr
      subst this
      simp at hq
      subst hq
      exact le_refl _
    | some m =>
      rw [hr] at h
      dsimp only at h
      rcases List.mem_cons.mp hq with hq | hq
      · subst hq
        by_cases hgt : m.2 > q.2
        · rw [if_pos hgt] at h; simp at h; subst h; exact le_of_lt hgt
        · rw [if_neg hgt] at h; simp at h; subst h; exact le_refl _
      · have hle : q.2 ≤ m.2 := ih m hr q hq
        by_cases hgt : m.2 > x.2
        · rw [if_pos hgt] at h; simp at h; subst h; exact hle
        · rw [if_neg hgt] at h; simp at h; subst h
          exact hle.trans (not_lt.mp hgt)

/-- `argmaxFirst` returns the first entry attaining the maximum: every
earlier entry has a strictly smaller key (Python `max` keeps the current
value on ties). -/
theorem argmaxFirst_first {α β : Type} [LinearOrder β] :
    ∀ (l : List (α × β)) (p : α × β), argmaxFirst l = some p →
      ∃ l₁ l₂, l = l₁ ++ p :: l₂ ∧ ∀ q ∈ l₁, q.2 < p.2 := by
  intro l
  induction l with
  | nil => intro p h; simp [argmaxFirst] at h
  | cons x rest ih =>
    intro p h
    simp only [argmaxFirst] at h
    cases hr : argmaxFirst rest with
    | none =>
      rw [hr] at h; simp at h; subst h
      exact ⟨[], rest, rfl, by simp⟩
    | some m =>
      rw [hr] at h
      dsimp only at h
      by_cases hgt : m.2 > x.2
      · rw [if_pos hgt] at h; simp at h; subst h
        rcases ih m hr with ⟨l₁, l₂, heq, hlt⟩
        refine ⟨x :: l₁, l₂, by simp [heq], ?_⟩
        intro q hq
        rcases List.mem_cons.mp hq with hq | hq
        · subst hq; exact hgt
        · exact hlt q hq
      · rw [if_neg hgt] at h; simp at h; subst h
        exact ⟨[], rest, rfl, by simp⟩

theorem argmaxFirst_isSome {α β : Type} [LinearOrder β]
    (l : List (α × β)) (h : l ≠ []) : ∃ p, argmaxFirst l = some p := by
  cases hr : argmaxFirst l with
  | none => exact absurd ((argmaxFirst_eq_none_iff l).mp hr) h
  | some p => exact ⟨p, rfl⟩

/-! ## Helper lemmas: `minTime?` and the race -/

theorem minTime?_cons_eq_foldl (x : Nat) (xs : List Nat) :
    minTime? (x :: xs) = some (xs.foldl Nat.min x) := by
  suffices h : ∀ (l : List Nat) (a : Nat),
      (l.foldl (fun acc t =>
        match acc with
        | none => some t
        | some m => some (Nat.min m t)) (some a)) = some (l.foldl Nat.min a) by
    simpa [minTime?] using h xs x
  intro l
  induction l with
  | nil => intro a; rfl
  | cons y ys ih => intro a; simpa using ih (Nat.min a y)

theorem foldlMin_mem (l : List Nat) :
    ∀ (a : Nat), l.foldl Nat.min a ∈ a :: l := by
  induction l with
  | nil => intro a; simp
  | cons y ys ih =>
    intro a
    simp only [List.foldl_cons]
    rcases List.mem_cons.mp (ih (Nat.min a y)) with h | h
    · by_cases hay : a ≤ y
      · have hm : Nat.min a y = a := min_eq_left hay
        rw [h, hm]
        exact List.mem_cons_self _ _
      · have hm : Nat.min a y = y := min_eq_right (Nat.le_of_not_le hay)
        rw [h, hm]
        exact List.mem_cons.mpr (Or.inr (List.mem_cons_self _ _))
    · exact List.mem_cons.mpr (Or.inr (List.mem_cons.mpr (Or.inr h)))

theorem foldlMin_le (l : List Nat) :
    ∀ (a : Nat), ∀ x ∈ a :: l, l.foldl Nat.min a ≤ x := by
  induction l with
  | nil =>
    intro a x hx
    simp at hx
    simp [hx]
  | cons y ys ih =>
    intro a x hx
    simp only [List.foldl_cons]
    rcases List.mem_cons.mp hx with hx | hx
    · rw [hx]
      exact le_trans (ih (Nat.min a y) _ (List.mem_cons_self _ _))
        (Nat.min_le_left _ _)
    · rcases List.mem_cons.mp hx with hx | hx
      · rw [hx]
        exact le_trans (ih (Nat.min a y) _ (List.mem_cons_self _ _))
          (Nat.min_le_right _ _)
      · exact ih (Nat.min a y) x (List.mem_cons.mpr (Or.inr hx))

/-- A member that bounds the whole list from below is the minimum. -/
theorem minTime?_eq_some (l : List Nat) (m : Nat) (hm : m ∈ l)
    (hle : ∀ x ∈ l, m ≤ x) : minTime? l = some m := by
  cases l with
  | nil => simp at hm
  | cons x xs =>
    rw [minTime?_cons_eq_foldl]
    congr 1
    have h1 : xs.foldl Nat.min x ≤ m := foldlMin_le xs x m hm
    have h2 : m ≤ xs.foldl Nat.min x := hle _ (foldlMin_mem xs x)
    exact le_antisymm h1 h2

/-- A race result is the result of some task. -/
theorem race_mem {α : Type} (tasks : List (RTask α)) (ceil : Nat) (r : α)
    (h : race tasks ceil = some r) : ∃ t ∈ tasks, t.result = some r := by
  unfold race at h
  cases hd : firstDoneTime tasks ceil with
  | none => rw [hd] at h; simp at h
  | some tmin =>
    rw [hd] at h
    dsimp only at h
    cases hh : ((tasks.filter (fun t => t.time = some tmin)).filterMap
        RTask.result) with
    | nil => rw [hh] at h; simp at h
    | cons v vs =>
      rw [hh] at h
      simp only [List.head?] at h
      have hv : v ∈ (tasks.filter (fun t => t.time = some tmin)).filterMap
          RTask.result := by rw [hh]; exact List.mem_cons_self _ _
      rcases List.mem_filterMap.mp hv with ⟨t, ht, hres⟩
      exact ⟨t, List.mem_of_mem_filter ht, by rw [hres]; simpa using h⟩

/-! ## Helper lemmas: the vote tally, the move selector, the adapters -/

theorem addVote_ne_nil (acc : List (String × ℚ)) (m : String) (w : ℚ) :
    addVote acc m w ≠ [] := by
  cases acc with
  | nil => simp [addVote]
  | cons p rest =>
    rcases p with ⟨m', w'⟩
    by_cases hm : m' = m <;> simp [addVote, hm]

theorem foldl_addVote_ne_nil (l : List (String × ℚ)) :
    ∀ (acc : List (String × ℚ)), acc ≠ [] →
      l.foldl (fun acc p => addVote acc p.1 p.2) acc ≠ [] := by
  induction l with
  | nil => intro acc h; simpa using h
  | cons p rest ih =>
    intro acc _
    simp only [List.foldl_cons]
    exact ih _ (addVote_ne_nil acc p.1 p.2)

/-- The tally of a non-empty collection is non-empty. -/
theorem moveVotes_ne_nil (l : List (String × ℚ)) (h : l ≠ []) :
    moveVotes l ≠ [] := by
  cases l with
  | nil => exact absurd rfl h
  | cons p rest =>
    unfold moveVotes
    simp only [List.foldl_cons]
    exact foldl_addVote_ne_nil rest _ (addVote_ne_nil [] p.1 p.2)

/-- The selected smart move is one of the legal moves. -/
theorem selectSmartMove_mem (b : Board) (jitter : Move → Int)
    (legal : List Move) (m : Move)
    (h : selectSmartMove b jitter legal = some m) : m ∈ legal := by
  simp only [selectSmartMove] at h
  cases hg : argmaxFirst ((legal.map
      (fun m => (m, moveScore b m + jitter m))).filter (fun p => p.2 > -100)) with
  | some p =>
    rw [hg] at h
    simp only [Option.some.injEq] at h
    subst h
    have hp := argmaxFirst_mem _ _ hg
    have hp' := List.mem_of_mem_filter hp
    rcases List.mem_map.mp hp' with ⟨mv, hmv, hpair⟩
    rw [← hpair]
    exact hmv
  | none =>
    rw [hg] at h
    simp only [Option.map_eq_some'] at h
    rcases h with ⟨p, hp, hfst⟩
    have hmem := argmaxFirst_mem _ _ hp
    rcases List.mem_map.mp hmem with ⟨mv, hmv, hpair⟩
    rw [← hfst, ← hpair]
    exact hmv

/-- The smart-move selection succeeds on a non-empty legal-move list. -/
theorem selectSmartMove_isSome (b : Board) (jitter : Move → Int)
    (legal : List Move) (h : legal ≠ []) :
    ∃ m, selectSmartMove b jitter legal = some m := by
  simp only [selectSmartMove]
  cases hg : argmaxFirst ((legal.map
      (fun m => (m, moveScore b m + jitter m))).filter (fun p => p.2 > -100)) with
  | some p => exact ⟨p.1, rfl⟩
  | none =>
    have hne : legal.map (fun m => (m, moveScore b m + jitter m)) ≠ [] := by
      intro hl
      exact h (List.map_eq_nil_iff.mp hl)
    rcases argmaxFirst_isSome _ hne with ⟨p, hp⟩
    exact ⟨p.1, by rw [hp]; rfl⟩

/-- `analyze_with_backup` succeeds whenever the position has a legal move. -/
theorem analyzeWithBackup_ok (fen : String) (b : Board) (jitter : Move → Int)
    (legal : List Move) (h : legal ≠ []) :
    ∃ r, analyzeWithBackup fen b jitter legal = .ok r := by
  unfold analyzeWithBackup
  cases lookupBook fen with
  | some mv => exact ⟨_, rfl⟩
  | none =>
    rw [if_neg (by simpa using h)]
    rcases selectSmartMove_isSome b jitter legal h with ⟨m, hm⟩
    rw [hm]
    exact ⟨_, rfl⟩

/-- Each remote adapter reports `depth_reached = depth`. -/
theorem tryLichess_depth (resp : Option LichessData) (depth : Nat)
    (r : MoveResult) (h : tryLichess resp depth = some r) :
    r.depth_reached = depth := by
  unfold tryLichess at h
  rcases resp with _ | data
  · simp at h
  · dsimp only at h
    cases hph : data.pvs.head? with
    | none => rw [hph] at h; simp at h
    | some pv =>
      rw [hph] at h
      dsimp only at h
      cases hpm : pv.moves with
      | none => rw [hpm] at h; simp at h
      | some mstr =>
        rw [hpm] at h
        dsimp only at h
        by_cases h0 : mstr = ""
        · rw [if_pos h0] at h; simp at h
        · rw [if_neg h0] at h
          cases hts : pyTokens mstr with
          | nil => rw [hts] at h; simp at h
          | cons raw rest =>
            rw [hts] at h
            dsimp only at h
            by_cases hc : cleanMoveFormat raw = ""
            · rw [if_pos hc] at h; simp at h
            · rw [if_neg hc] at h
              simp only [Option.some.injEq] at h
              rw [← h]

theorem tryChessdb_depth (resp : Option ChessdbData) (depth : Nat)
    (r : MoveResult) (h : tryChessdb resp depth = some r) :
    r.depth_reached = depth := by
  unfold tryChessdb at h
  rcases resp with _ | data
  · simp at h
  · dsimp only at h
    cases hpv : data.pv with
    | none => rw [hpv] at h; simp at h
    | some pvs =>
      rw [hpv] at h
      dsimp only at h
      by_cases h0 : pvs = ""
      · rw [if_pos h0] at h; simp at h
      · rw [if_neg h0] at h
        cases hts : pyTokens (pyStrip pvs) with
        | nil => rw [hts] at h; simp at h
        | cons raw rest =>
          rw [hts] at h
          dsimp only at h
          by_cases hc : cleanMoveFormat raw = ""
          · rw [if_pos hc] at h; simp at h
          · rw [if_neg hc] at h
            simp only [Option.some.injEq] at h
            rw [← h]

theorem tryStockfishOnline_depth (resp : Option SfoData) (depth : Nat)
    (r : MoveResult) (h : tryStockfishOnline resp depth = some r) :
    r.depth_reached = depth := by
  unfold tryStockfishOnline at h
  rcases resp with _ | data
  · simp at h
  · dsimp only at h
    cases hbm : data.bestmove with
    | none => rw [hbm] at h; simp at h
    | some bm =>
      rw [hbm] at h
      dsimp only at h
      by_cases h0 : bm = ""
      · rw [if_pos h0] at h; simp at h
      · rw [if_neg h0] at h
        by_cases hc : cleanMoveFormat bm = ""
        · rw [if_pos hc] at h; simp at h
        · rw [if_neg hc] at h
          simp only [Option.some.injEq] at h
          rw [← h]

/-- Inversion: a successful Lichess-adapter result exposes its parts. -/
theorem tryLichess_inv (resp : Option LichessData) (depth : Nat)
    (r : MoveResult) (h : tryLichess resp depth = some r) :
    ∃ data pv mstr raw rest, resp = some data ∧
      data.pvs.head? = some pv ∧ pv.moves = some mstr ∧
      pyTokens mstr = raw :: rest ∧ cleanMoveFormat raw ≠ "" ∧
      r = { best_move := cleanMoveFormat raw
            eval := ⟨some (pv.cp.getD 0), pv.mate⟩
            engine_used := "lichess_cloud"
            depth_reached := depth
            best_line := (raw :: rest).take 3 } := by
  unfold tryLichess at h
  rcases resp with _ | data
  · simp at h
  · dsimp only at h
    cases hph : data.pvs.head? with
    | none => rw [hph] at h; simp at h
    | some pv =>
      rw [hph] at h
      dsimp only at h
      cases hpm : pv.moves with
      | none => rw [hpm] at h; simp at h
      | some mstr =>
        rw [hpm] at h
        dsimp only at h
        by_cases h0 : mstr = ""
        · rw [if_pos h0] at h; simp at h
        · rw [if_neg h0] at h
          cases hts : pyTokens mstr with
          | nil => rw [hts] at h; simp at h
          | cons raw rest =>
            rw [hts] at h
            dsimp only at h
            by_cases hc : cleanMoveFormat raw = ""
            · rw [if_pos hc] at h; simp at h
            · rw [if_neg hc] at h
              simp only [Option.some.injEq] at h
              exact ⟨data, pv, mstr, raw, rest, rfl, hph, hpm, hts, hc, h.symm⟩

/-- Inversion for the ChessDB adapter. -/
theorem tryChessdb_inv (resp : Option ChessdbData) (depth : Nat)
    (r : MoveResult) (h : tryChessdb resp depth = some r) :
    ∃ data pvs raw rest, resp = some data ∧ data.pv = some pvs ∧
      pyTokens (pyStrip pvs) = raw :: rest ∧ cleanMoveFormat raw ≠ "" ∧
      r = { best_move := cleanMoveFormat raw
            eval := ⟨some (data.score.getD 0), none⟩
            engine_used := "chessdb"
            depth_reached := depth
            best_line := (raw :: rest).take 3 } := by
  unfold tryChessdb at h
  rcases resp with _ | data
  · simp at h
  · dsimp only at h
    cases hpv : data.pv with
    | none => rw [hpv] at h; simp at h
    | some pvs =>
      rw [hpv] at h
      dsimp only at h
      by_cases h0 : pvs = ""
      · rw [if_pos h0] at h; simp at h
      · rw [if_neg h0] at h
        cases hts : pyTokens (pyStrip pvs) with
        | nil => rw [hts] at h; simp at h
        | cons raw rest =>
          rw [hts] at h
          dsimp only at h
          by_cases hc : cleanMoveFormat raw = ""
          · rw [if_pos hc] at h; simp at h
          · rw [if_neg hc] at h
            simp only [Option.some.injEq] at h
            exact ⟨data, pvs, raw, rest, rfl, hpv, hts, hc, h.symm⟩

/-- Inversion for the stockfish.online adapter. -/
theorem tryStockfishOnline_inv (resp : Option SfoData) (depth : Nat)
    (r : MoveResult) (h : tryStockfishOnline resp depth = some r) :
    ∃ data bm, resp = some data ∧ data.bestmove = some bm ∧
      cleanMoveFormat bm ≠ "" ∧
      r = { best_move := cleanMoveFormat bm
            eval := ⟨some (data.evaluation.getD 0), none⟩
            engine_used := "stockfish_online"
            depth_reached := depth
            best_line := [cleanMoveFormat bm] } := by
  unfold tryStockfishOnline at h
  rcases resp with _ | data
  · simp at h
  · dsimp only at h
    cases hbm : data.bestmove with
    | none => rw [hbm] at h; simp at h
    | some bm =>
      rw [hbm] at h
      dsimp only at h
      by_cases h0 : bm = ""
      · rw [if_pos h0] at h; simp at h
      · rw [if_neg h0] at h
        by_cases hc : cleanMoveFormat bm = ""
        · rw [if_pos hc] at h; simp at h
        · rw [if_neg hc] at h
          simp only [Option.some.injEq] at h
          exact ⟨data, bm, rfl, hbm, hc, h.symm⟩

/-- An evaluation with a non-null `cp` satisfies exactly-one iff its
`mate` is null. -/
theorem exactlyOneCM_some_left (c : Int) (m : Option Int) :
    exactlyOneCM ⟨some c, m⟩ ↔ m = none := by
  unfold exactlyOneCM
  cases m <;> simp

/-- `evalOfScore` always satisfies the exactly-one invariant. -/
theorem evalOfScore_exactlyOne (s : Option Score) :
    exactlyOneCM (evalOfScore s) := by
  unfold evalOfScore
  cases s with
  | none => simp [exactlyOneCM]
  | some sc => cases sc <;> simp [exactlyOneCM]

/-! ## Helper lemmas: orchestration -/

theorem engineInfoResult_inv (info : EngineInfo) (n : String) (d : Nat)
    (r : MoveResult) (h : engineInfoResult info n d = some r) :
    r.depth_reached = d ∧ r.eval = evalOfScore info.score ∧
      r.engine_used = n := by
  unfold engineInfoResult at h
  cases hh : info.pv.head? with
  | none => rw [hh] at h; simp at h
  | some bm =>
    rw [hh] at h
    simp only [Option.map_some', Option.some.injEq] at h
    rw [← h]
    exact ⟨rfl, rfl, rfl⟩

theorem localTryResult_inv (cfg : List (String × EngineVal))
    (attempt : Option EngineInfo) (n : String) (d : Nat) (r : MoveResult)
    (h : localTryResult cfg attempt n d = some r) :
    r.depth_reached = d ∧ (∃ s, r.eval = evalOfScore s) ∧
      r.engine_used = n := by
  unfold localTryResult at h
  cases hl : lookupCfg cfg "stockfish" with
  | none => rw [hl] at h; simp at h
  | some v =>
    rw [hl] at h
    cases v with
    | native =>
      rcases Option.bind_eq_some.mp h with ⟨info, _, hres⟩
      rcases engineInfoResult_inv _ _ _ _ hres with ⟨h1, h2, h3⟩
      exact ⟨h1, ⟨info.score, h2⟩, h3⟩
    | tagUnavailable => simp at h
    | tagStockfishJs => simp at h
    | tagBackup => simp at h
    | tagRandom => simp at h

/-- Any result of the remote race carries `depth_reached = depth`. -/
theorem raceRemotes_depth (p : OnlineParams) (depth : Nat) (r : MoveResult)
    (h : race
      [⟨p.lichessTime, tryLichess p.lichessResp depth⟩,
       ⟨p.chessdbTime, tryChessdb p.chessdbResp depth⟩,
       ⟨p.sfoTime, tryStockfishOnline p.sfoResp depth⟩] 10 = some r) :
    r.depth_reached = depth := by
  rcases race_mem _ _ _ h with ⟨t, ht, hres⟩
  simp only [List.mem_cons, List.mem_singleton] at ht
  rcases ht with ht | ht | ht | ht
  · rw [ht] at hres
    exact tryLichess_depth _ _ _ hres
  · rw [ht] at hres
    exact tryChessdb_depth _ _ _ hres
  · rw [ht] at hres
    exact tryStockfishOnline_depth _ _ _ hres
  · simp at ht

/-- Any result surfaced by `try_online_stockfish` respects the requested
depth (the forced local attempt caps at `min(depth, 12)`, the remote
adapters report `depth`). -/
theorem tryOnlineStockfish_depth (cfg : List (String × EngineVal))
    (em : Option EngineInfo) (p : OnlineParams) (depth : Nat) (r : MoveResult)
    (h : (tryOnlineStockfish cfg em p depth).1 = some r) :
    r.depth_reached ≤ depth := by
  simp only [tryOnlineStockfish] at h
  cases hb : localTryResult cfg em "stockfish_local_EMERGENCY"
      (Nat.min depth 12) with
  | none =>
    rw [hb] at h
    dsimp only at h
    exact le_of_eq (raceRemotes_depth p depth r h)
  | some r' =>
    rw [hb] at h
    simp only [Option.some.injEq] at h
    subst h
    rw [(localTryResult_inv _ _ _ _ _ hb).1]
    exact Nat.min_le_left _ _

theorem except_map_eq_ok {ε α β : Type} (f : α → β) (e : Except ε α) (r : β)
    (h : e.map f = .ok r) : ∃ r₀, e = .ok r₀ ∧ r = f r₀ := by
  cases e with
  | ok v => exact ⟨v, rfl, by simpa [Except.map] using h.symm⟩
  | error _ => simp [Except.map] at h

/-- The backup engine only ever reports depth 15 (book) or 12. -/
theorem analyzeWithBackup_depth (fen : String) (b : Board)
    (jitter : Move → Int) (legal : List Move) (r : MoveResult)
    (h : analyzeWithBackup fen b jitter legal = .ok r) :
    r.depth_reached = 15 ∨ r.depth_reached = 12 := by
  unfold analyzeWithBackup at h
  cases hb : lookupBook fen with
  | some mv =>
    rw [hb] at h
    simp only [Except.ok.injEq] at h
    rw [← h]
    exact Or.inl rfl
  | none =>
    rw [hb] at h
    by_cases hl : legal.isEmpty
    · rw [if_pos hl] at h; simp at h
    · rw [if_neg hl] at h
      cases hs : selectSmartMove b jitter legal with
      | none => rw [hs] at h; simp at h
      | some m =>
        rw [hs] at h
        simp only [Except.ok.injEq] at h
        rw [← h]
        exact Or.inr rfl

/-- The backup engine's only failure is `NoLegalMoves`. -/
theorem analyzeWithBackup_error (fen : String) (b : Board)
    (jitter : Move → Int) (legal : List Move) (e : EngErr)
    (h : analyzeWithBackup fen b jitter legal = .error e) :
    e = .noLegalMoves := by
  unfold analyzeWithBackup at h
  cases hb : lookupBook fen with
  | some mv => rw [hb] at h; simp at h
  | none =>
    rw [hb] at h
    by_cases hl : legal.isEmpty
    · rw [if_pos hl] at h
      simp only [Except.error.injEq] at h
      exact h.symm
    · rw [if_neg hl] at h
      cases hs : selectSmartMove b jitter legal with
      | none =>
        rw [hs] at h
        simp only [Except.error.injEq] at h
        exact h.symm
      | some m => rw [hs] at h; simp at h

/-- The backup engine's evaluation always has `cp` set and `mate` null. -/
theorem analyzeWithBackup_eval (fen : String) (b : Board)
    (jitter : Move → Int) (legal : List Move) (r : MoveResult)
    (h : analyzeWithBackup fen b jitter legal = .ok r) :
    exactlyOneCM r.eval := by
  unfold analyzeWithBackup at h
  cases hb : lookupBook fen with
  | some mv =>
    rw [hb] at h
    simp only [Except.ok.injEq] at h
    rw [← h]
    exact Or.inl (by simp)
  | none =>
    rw [hb] at h
    by_cases hl : legal.isEmpty
    · rw [if_pos hl] at h; simp at h
    · rw [if_neg hl] at h
      cases hs : selectSmartMove b jitter legal with
      | none => rw [hs] at h; simp at h
      | some m =>
        rw [hs] at h
        simp only [Except.ok.injEq] at h
        rw [← h]
        exact Or.inl (by simp)

/-- The random engine's evaluation always has `cp` set and `mate` null,
its depth is always 1, and it fails exactly on an empty legal-move list. -/
theorem analyzeWithRandom_inv (choiceIdx : Nat) (randEval : Int)
    (legal : List Move) :
    (legal = [] → analyzeWithRandom choiceIdx randEval legal =
        .error .noLegalMoves) ∧
    (legal ≠ [] → ∃ r, analyzeWithRandom choiceIdx randEval legal = .ok r ∧
        exactlyOneCM r.eval ∧ r.depth_reached = 1) := by
  constructor
  · intro h
    subst h
    rfl
  · intro h
    unfold analyzeWithRandom
    rw [if_neg (by simpa using h)]
    exact ⟨_, rfl, Or.inl (by simp), rfl⟩

/-- `analyze_with_stockfish` depth accounting: engine paths stay within the
requested depth; only the relabelled backup path reports the fixed depths
15/12. -/
theorem analyzeWithStockfish_depth (cfg : List (String × EngineVal))
    (em : Option EngineInfo) (p : OnlineParams) (nat : Option EngineInfo)
    (fen : String) (b : Board) (jitter : Move → Int) (legal : List Move)
    (depth : Nat) (r : MoveResult)
    (h : (analyzeWithStockfish cfg em p nat fen b jitter legal depth).1 =
      .ok r) :
    r.depth_reached ≤ depth ∨
      (r.engine_used = "EMERGENCY_BACKUP - APIs_FAILED" ∧
        (r.depth_reached = 15 ∨ r.depth_reached = 12)) := by
  simp only [analyzeWithStockfish] at h
  by_cases hg : lookupCfg cfg "stockfish" = none ∧
      lookupCfg cfg "stockfish_backup" = none
  · rw [if_pos hg] at h; simp at h
  · rw [if_neg hg] at h
    cases hem : localTryResult cfg em "stockfish_local_EMERGENCY_BYPASS"
        (Nat.min depth 12) with
    | some r' =>
      rw [hem] at h
      dsimp only at h
      simp only [Except.ok.injEq] at h
      subst h
      exact Or.inl ((localTryResult_inv _ _ _ _ _ hem).1 ▸ Nat.min_le_left _ _)
    | none =>
      rw [hem] at h
      dsimp only at h
      cases hon : (tryOnlineStockfish cfg em p depth).1 with
      | some r' =>
        rw [hon] at h
        dsimp only at h
        simp only [Except.ok.injEq] at h
        subst h
        exact Or.inl (tryOnlineStockfish_depth cfg em p depth r' hon)
      | none =>
        rw [hon] at h
        dsimp only at h
        cases hnat : localTryResult cfg nat "stockfish_native" depth with
        | some r' =>
          rw [hnat] at h
          dsimp only at h
          simp only [Except.ok.injEq] at h
          subst h
          exact Or.inl (le_of_eq (localTryResult_inv _ _ _ _ _ hnat).1)
        | none =>
          rw [hnat] at h
          dsimp only at h
          rcases except_map_eq_ok _ _ _ h with ⟨r₀, hr₀, hrr⟩
          subst hrr
          refine Or.inr ⟨rfl, ?_⟩
          simpa using analyzeWithBackup_depth fen b jitter legal r₀ hr₀

/-- `analyze_with_stockfish` succeeds whenever an engine key is configured
and the position has a legal move: every failing engine stage falls
through, and the terminal backup stage then succeeds. -/
theorem analyzeWithStockfish_ok (cfg : List (String × EngineVal))
    (em : Option EngineInfo) (p : OnlineParams) (nat : Option EngineInfo)
    (fen : String) (b : Board) (jitter : Move → Int) (legal : List Move)
    (depth : Nat)
    (hg : ¬(lookupCfg cfg "stockfish" = none ∧
      lookupCfg cfg "stockfish_backup" = none))
    (hlegal : legal ≠ []) :
    ∃ r, (analyzeWithStockfish cfg em p nat fen b jitter legal depth).1 =
      .ok r := by
  simp only [analyzeWithStockfish]
  rw [if_neg hg]
  cases hem : localTryResult cfg em "stockfish_local_EMERGENCY_BYPASS"
      (Nat.min depth 12) with
  | some r' => exact ⟨r', rfl⟩
  | none =>
    dsimp only
    cases hon : (tryOnlineStockfish cfg em p depth).1 with
    | some r' => exact ⟨r', rfl⟩
    | none =>
      dsimp only
      cases hnat : localTryResult cfg nat "stockfish_native" depth with
      | some r' => exact ⟨r', rfl⟩
      | none =>
        dsimp only
        rcases analyzeWithBackup_ok fen b jitter legal hlegal with ⟨r₀, hr₀⟩
        rw [hr₀]
        exact ⟨_, rfl⟩

/-- `get_best_move` succeeds on a valid position with at least one legal
move, whatever engine name is requested. -/
theorem getBestMove_ok (parse : String → Option String)
    (cfg : List (String × EngineVal)) (em : Option EngineInfo)
    (p : OnlineParams) (nat : Option EngineInfo) (b : Board)
    (jitter : Move → Int) (legal : List Move) (ci : Nat) (re : Int)
    (req : MoveRequest) (f : String) (hp : parse req.fen = some f)
    (hlegal : legal ≠ []) :
    ∃ r, (getBestMove parse cfg em p nat b jitter legal ci re req).1 =
      .ok r := by
  simp only [getBestMove]
  rw [hp]
  dsimp only
  by_cases he : req.engine = "random"
  · rw [if_pos he]
    rcases (analyzeWithRandom_inv ci re legal).2 hlegal with ⟨r, hr, _⟩
    exact ⟨r, by rw [hr]; rfl⟩
  · rw [if_neg he]
    by_cases hs : (lookupCfg cfg "stockfish").isSome ∨
        (lookupCfg cfg "stockfish_backup").isSome
    · rw [if_pos hs]
      have hg : ¬(lookupCfg cfg "stockfish" = none ∧
          lookupCfg cfg "stockfish_backup" = none) := by
        intro hc
        rcases hs with hs | hs
        · rw [hc.1] at hs; simp at hs
        · rw [hc.2] at hs; simp at hs
      rcases analyzeWithStockfish_ok cfg em p nat f b jitter legal req.depth
        hg hlegal with ⟨r, hr⟩
      exact ⟨r, by dsimp only; rw [hr]; rfl⟩
    · rw [if_neg hs]
      rcases analyzeWithBackup_ok f b jitter legal hlegal with ⟨r, hr⟩
      exact ⟨r, by rw [hr]; rfl⟩

/-- The ensemble collection loop gathers zero results on every input:
each iteration either skips an unrecognized name, swallows an analysis
failure, or swallows the `AttributeError` raised by the vote
construction's attribute access on the returned dict. -/
theorem collectEnsemble_eq_nil (parse : String → Option String)
    (cfg : List (String × EngineVal)) (em : Option EngineInfo)
    (p : OnlineParams) (nat : Option EngineInfo) (b : Board)
    (jitter : Move → Int) (legal : List Move) (ci : Nat) (re : Int)
    (fen : String) (depth : Nat) (names : List String) :
    collectEnsemble parse cfg em p nat b jitter legal ci re fen depth
      names = [] := by
  induction names with
  | nil => rfl
  | cons n rest ih =>
    simp only [collectEnsemble]
    by_cases hc : (lookupCfg cfg n).isSome
    · rw [if_pos hc]
      cases hbm : (getBestMove parse cfg em p nat b jitter legal ci re
          ⟨fen, depth, n⟩).1 with
      | ok r => exact ih
      | error e => exact ih
    · rw [if_neg hc]
      exact ih

/-- On a valid position, `get_ensemble_analysis` raises `All engines
failed` exactly when the collection loop gathered zero results. -/
theorem getEnsemble_fail_iff (parse : String → Option String)
    (cfg : List (String × EngineVal)) (em : Option EngineInfo)
    (p : OnlineParams) (nat : Option EngineInfo) (b : Board)
    (jitter : Move → Int) (legal : List Move) (ci : Nat) (re : Int)
    (req : EnsembleRequest) (f : String) (hp : parse req.fen = some f) :
    getEnsemble parse cfg em p nat b jitter legal ci re req =
        .error .allBackendsFailed ↔
      collectEnsemble parse cfg em p nat b jitter legal ci re req.fen
        req.depth req.engines = [] := by
  simp only [getEnsemble]
  rw [hp]
  dsimp only
  by_cases hr : (collectEnsemble parse cfg em p nat b jitter legal ci re
      req.fen req.depth req.engines).isEmpty
  · rw [if_pos hr]
    simp only [List.isEmpty_iff] at hr
    simp [hr]
  · rw [if_neg hr]
    have hne : collectEnsemble parse cfg em p nat b jitter legal ci re
        req.fen req.depth req.engines ≠ [] := by
      simpa [List.isEmpty_iff] using hr
    constructor
    · intro h
      cases hc : ensembleConsensus
          (moveVotes ((collectEnsemble parse cfg em p nat b jitter legal ci re
            req.fen req.depth req.engines).map
              (fun v => (v.best_move, v.weight)))) with
      | some pr =>
        rcases pr with ⟨m, w⟩
        rw [hc] at h
        simp at h
      | none =>
        exfalso
        have hv : moveVotes ((collectEnsemble parse cfg em p nat b jitter
            legal ci re req.fen req.depth req.engines).map
              (fun v => (v.best_move, v.weight))) ≠ [] :=
          moveVotes_ne_nil _ (by simpa using hne)
        exact hv ((argmaxFirst_eq_none_iff _).mp hc)
    · intro h
      exact absurd h hne

/-! ## Concrete fixtures for the counterexamples and witnesses -/

/-- The standard starting position (also the first opening-book key;
`chess.Board(...).fen()` returns it unchanged). -/
def startposFen : String :=
  "rnbqkbnr/pppppppp/8/8/8/8/PPPPPPPP/RNBQKBNR w KQkq - 0 1"

/-- A stalemate position (black to move, no legal moves): white Kf6, Pf7
against black Kf8. -/
def stalemateFen : String := "5k2/5P2/5K2/8/8/8/8/8 b - - 0 1"

/-- The 20 legal moves of the standard starting position, as generated by
the python-chess move generator (`board.legal_moves`): sixteen pawn
pushes and four knight moves, in python-chess square numbering
(a1 = 0 … h8 = 63). -/
def startposLegalMoves : List Move :=
  [⟨8, 16, none⟩, ⟨8, 24, none⟩, ⟨9, 17, none⟩, ⟨9, 25, none⟩,
   ⟨10, 18, none⟩, ⟨10, 26, none⟩, ⟨11, 19, none⟩, ⟨11, 27, none⟩,
   ⟨12, 20, none⟩, ⟨12, 28, none⟩, ⟨13, 21, none⟩, ⟨13, 29, none⟩,
   ⟨14, 22, none⟩, ⟨14, 30, none⟩, ⟨15, 23, none⟩, ⟨15, 31, none⟩,
   ⟨1, 16, none⟩, ⟨1, 18, none⟩, ⟨6, 21, none⟩, ⟨6, 23, none⟩]

/-- A FEN-validation oracle accepting exactly the two fixture positions
(each is already in canonical form). -/
def parse0 : String → Option String := fun s =>
  if s = startposFen then some startposFen
  else if s = stalemateFen then some stalemateFen
  else none

/-- A deployment without a native engine: the typical `engines` dict after
startup when no Stockfish binary was found. -/
def cfg0 : List (String × EngineVal) :=
  [("stockfish_backup", .tagBackup), ("random", .tagRandom)]

/-- A board oracle with no observations (sufficient for positions whose
records the claims never consult). -/
def b0 : Board :=
  { pieceAt := fun _ => none, turn := true, isCapture := fun _ => false,
    givesCheck := fun _ => false, pushedIsCapture := fun _ => false }

/-- A Lichess cloud response proposing `e7e5` (arriving first, at t=1),
while the other services fail. -/
def online0 : OnlineParams :=
  { lichessResp := some ⟨[⟨some "e7e5 g1f3", some 20, none⟩]⟩
    lichessTime := some 1
    chessdbResp := none, chessdbTime := some 2
    sfoResp := none, sfoTime := some 2 }

/-- All three remote services fail. -/
def onlineFail : OnlineParams :=
  { lichessResp := none, lichessTime := some 2
    chessdbResp := none, chessdbTime := some 2
    sfoResp := none, sfoTime := some 2 }

/-- A Lichess cloud response for a forced-mate position: the JSON carries
`mate` and no `cp` key. -/
def lichessMate : Option LichessData :=
  some ⟨[⟨some "g2g4 e7e5", none, some 3⟩]⟩

/-! ## C1 — legality of the returned best move -/

/-- C1 counterexample: on the starting position (20 legal moves), a remote
backend response proposing the *illegal* move `e7e5` (a black move in a
white-to-move position) is surfaced unchanged by `get_best_move`; the
orchestration layer never checks membership in the legal-move set, it only
format-checks the token. -/
theorem C1_cex :
    ((getBestMove parse0 cfg0 none online0 none b0 (fun _ => 1)
        startposLegalMoves 0 0 ⟨startposFen, 15, "stockfish"⟩).1).map
        MoveResult.best_move = .ok "e7e5" ∧
    "e7e5" ∉ startposLegalMoves.map uciString ∧
    startposLegalMoves.map uciString ≠ [] := by decide

/-- C1 (amended): the orchestration layer guarantees only a syntactic
property of the returned move, not legality.  Results of the Lichess and
ChessDB adapters carry a non-empty token of 4-5 characters in
letter-digit-letter-digit shape; the stockfish.online adapter can
additionally surface the unvalidated second token of a `bestmove`-prefixed
reply, guaranteed non-empty only.  Only the heuristic fallback's selection
is drawn from the position's legal-move list. -/
theorem C1_thm :
    (∀ (resp : Option LichessData) (depth : Nat) (r : MoveResult),
        tryLichess resp depth = some r →
          r.best_move ≠ "" ∧ bareFormatB r.best_move = true) ∧
    (∀ (resp : Option ChessdbData) (depth : Nat) (r : MoveResult),
        tryChessdb resp depth = some r →
          r.best_move ≠ "" ∧ bareFormatB r.best_move = true) ∧
    (∀ (resp : Option SfoData) (depth : Nat) (r : MoveResult),
        tryStockfishOnline resp depth = some r → r.best_move ≠ "") ∧
    (∀ (b : Board) (jitter : Move → Int) (legal : List Move) (m : Move),
        selectSmartMove b jitter legal = some m → m ∈ legal) := by
  refine ⟨?_, ?_, ?_, fun b jitter legal m h =>
    selectSmartMove_mem b jitter legal m h⟩
  · intro resp depth r h
    rcases tryLichess_inv resp depth r h with
      ⟨data, pv, mstr, raw, rest, _, _, _, hts, hc, hr⟩
    have hraw : raw ∈ pyTokens mstr := by rw [hts]; exact List.mem_cons_self _ _
    have hws := pyTokens_wsFree mstr raw hraw
    have hbm : r.best_move = cleanMoveFormat raw := by rw [hr]
    rw [hbm]
    exact ⟨hc, cleanMoveFormat_wsFree raw hws hc⟩
  · intro resp depth r h
    rcases tryChessdb_inv resp depth r h with
      ⟨data, pvs, raw, rest, _, _, hts, hc, hr⟩
    have hraw : raw ∈ pyTokens (pyStrip pvs) := by
      rw [hts]; exact List.mem_cons_self _ _
    have hws := pyTokens_wsFree (pyStrip pvs) raw hraw
    have hbm : r.best_move = cleanMoveFormat raw := by rw [hr]
    rw [hbm]
    exact ⟨hc, cleanMoveFormat_wsFree raw hws hc⟩
  · intro resp depth r h
    rcases tryStockfishOnline_inv resp depth r h with ⟨data, bm, _, _, hc, hr⟩
    have hbm : r.best_move = cleanMoveFormat bm := by rw [hr]
    rw [hbm]
    exact hc

/-- C1 witness: the format guarantee, instantiated on a concrete Lichess
response. -/
theorem C1_w :
    ("e7e5" : String) ≠ "" ∧ bareFormatB "e7e5" = true :=
  C1_thm.1 (some ⟨[⟨some "e7e5 g1f3", some 20, none⟩]⟩) 15
    ⟨"e7e5", ⟨some 20, none⟩, "lichess_cloud", 15, ["e7e5", "g1f3"]⟩
    (by decide)

/-! ## C2 — ensemble consensus and confidence -/

/-- C2 counterexample: with two collected results both proposing `e2e4`
(weights 0.8 and 0.2), the code computes
`min(100, (1.0 / 2) * 100) = 50.0`, not the claimed `100.0` — the claim's
own formula contradicts its first example, and the code follows the
formula. -/
theorem C2_cex :
    ensembleConsensus (moveVotes [("e2e4", 8/10), ("e2e4", 2/10)]) =
        some ("e2e4", 1) ∧
    ensembleConfidence 1 2 = 50 ∧ ((50 : ℚ) ≠ 100) := by
  refine ⟨?_, ?_, by norm_num⟩
  · norm_num [moveVotes, addVote, ensembleConsensus, argmaxFirst]
  · norm_num [ensembleConfidence, pyRound1, roundHalfEven]

/-- C2 (amended): the consensus is the highest-summed-weight move with
ties broken by first-seen insertion order, and
`confidence = min(100, (winningWeight / numCollectedResults) * 100)`
rounded to one decimal.  For `[{e2e4, 0.8}, {e2e4, 0.2}]` over 2 results
this gives consensus `e2e4` with confidence `50.0` (not `100.0`); for
`[{e2e4, 0.8}, {d2d4, 0.2}]` it gives `e2e4` with `40.0`. -/
theorem C2_thm :
    (ensembleConsensus (moveVotes [("e2e4", 8/10), ("e2e4", 2/10)]) =
        some ("e2e4", 1) ∧
      ensembleConfidence 1 2 = 50) ∧
    (ensembleConsensus (moveVotes [("e2e4", 8/10), ("d2d4", 2/10)]) =
        some ("e2e4", 8/10) ∧
      ensembleConfidence (8/10) 2 = 40) ∧
    (∀ (votes : List (String × ℚ)) (pr : String × ℚ),
        ensembleConsensus votes = some pr →
          pr ∈ votes ∧ (∀ q ∈ votes, q.2 ≤ pr.2) ∧
          ∃ l₁ l₂, votes = l₁ ++ pr :: l₂ ∧ ∀ q ∈ l₁, q.2 < pr.2) := by
  refine ⟨⟨?_, ?_⟩, ⟨?_, ?_⟩, ?_⟩
  · norm_num [moveVotes, addVote, ensembleConsensus, argmaxFirst]
  · norm_num [ensembleConfidence, pyRound1, roundHalfEven]
  · norm_num [moveVotes, addVote, ensembleConsensus, argmaxFirst]
  · norm_num [ensembleConfidence, pyRound1, roundHalfEven]
  · intro votes pr h
    exact ⟨argmaxFirst_mem votes pr h, argmaxFirst_le votes pr h,
      argmaxFirst_first votes pr h⟩

/-- C2 witness: the tie-break/maximality guarantee applied to a concrete
singleton tally. -/
theorem C2_w :
    ("a7a6", (1 : ℚ)) ∈ [("a7a6", (1 : ℚ))] ∧
      (∀ q ∈ [("a7a6", (1 : ℚ))], q.2 ≤ 1) :=
  ⟨(C2_thm.2.2 [("a7a6", 1)] ("a7a6", 1) rfl).1,
    (C2_thm.2.2 [("a7a6", 1)] ("a7a6", 1) rfl).2.1⟩

/-! ## C3 — the parallel race -/

/-- Modelled from the spec's words (for refutation): the race "on the
first task producing a non-none result … returns that result" — i.e. the
returned value is the result of the task with the earliest completion time
*among those that produce a non-none result* within the ceiling. -/
def raceSpecFirstSuccess {α : Type} (tasks : List (RTask α)) (ceil : Nat) :
    Option α :=
  let succ := tasks.filterMap (fun t =>
    match t.time, t.result with
    | some tm, some r => if tm ≤ ceil then some (tm, r) else none
    | _, _ => none)
  (succ.foldl (fun acc p =>
    match acc with
    | none => some p
    | some q => if p.1 < q.1 then some p else some q) none).map Prod.snd

/-- C3 counterexample: task 0 completes first (t=1) with result `none`,
task 1 completes at t=2 with a success.  The spec's race would return the
task-1 success; the code's `asyncio.wait(FIRST_COMPLETED)` wakes on task 0,
cancels task 1, finds no non-none result among the done set, and returns
`none`. -/
theorem C3_cex :
    race [⟨some 1, (none : Option String)⟩, ⟨some 2, some "ok"⟩] 10 = none ∧
    raceSpecFirstSuccess
      [⟨some 1, (none : Option String)⟩, ⟨some 2, some "ok"⟩] 10 =
        some "ok" := by decide

/-- C3 (amended): the race waits for the *first completion*, cancels
everything else, and returns a non-none result only if one of the
first-completed tasks carries it.  If no task completes within the
ceiling, it returns none and cancels all tasks.  A task completing first
with result none makes the race return none even when a later task would
have succeeded. -/
theorem C3_thm {α : Type} (tasks : List (RTask α)) (ceil : Nat) :
    ((∀ t ∈ tasks, ∀ tm, t.time = some tm → ceil < tm) →
        race tasks ceil = none ∧ raceCancelled tasks ceil = tasks) ∧
    (∀ t ∈ tasks, ∀ tm, t.time = some tm → tm ≤ ceil →
        (∀ u ∈ tasks, ∀ um, u.time = some um → tm ≤ um) →
        ((∀ u ∈ tasks, u.time = some tm → u.result = none) →
            race tasks ceil = none) ∧
        (∀ r, (∀ u ∈ tasks, u.time = some tm → u.result = some r) →
            race tasks ceil = some r) ∧
        (∀ u ∈ tasks, u.time ≠ some tm →
            u ∈ raceCancelled tasks ceil)) := by
  constructor
  · intro hlate
    have hnil : ((tasks.filterMap RTask.time).filter (· ≤ ceil)) = [] := by
      rw [List.filter_eq_nil_iff]
      intro x hx
      rcases List.mem_filterMap.mp hx with ⟨u, hu, hut⟩
      have := hlate u hu x hut
      simp only [decide_eq_true_eq]
      omega
    constructor
    · unfold race firstDoneTime
      rw [hnil]
      rfl
    · unfold raceCancelled firstDoneTime
      rw [hnil]
      rfl
  · intro t ht tm htime hle hall
    have htm_mem : tm ∈ (tasks.filterMap RTask.time).filter (· ≤ ceil) := by
      refine List.mem_filter.mpr ⟨List.mem_filterMap.mpr ⟨t, ht, htime⟩, ?_⟩
      simpa using hle
    have hlb : ∀ x ∈ (tasks.filterMap RTask.time).filter (· ≤ ceil),
        tm ≤ x := by
      intro x hx
      rcases List.mem_filter.mp hx with ⟨hx1, _⟩
      rcases List.mem_filterMap.mp hx1 with ⟨u, hu, hut⟩
      exact hall u hu x hut
    have hmin : firstDoneTime tasks ceil = some tm := by
      unfold firstDoneTime
      exact minTime?_eq_some _ tm htm_mem hlb
    refine ⟨?_, ?_, ?_⟩
    · intro hnone
      unfold race
      rw [hmin]
      dsimp only
      have : (tasks.filter (fun u => u.time = some tm)).filterMap
          RTask.result = [] := by
        rw [List.filterMap_eq_nil_iff]
        intro u hu
        rcases List.mem_filter.mp hu with ⟨hu1, hu2⟩
        exact hnone u hu1 (by simpa using hu2)
      rw [this]
      rfl
    · intro r hsucc
      unfold race
      rw [hmin]
      dsimp only
      have htf : t ∈ tasks.filter (fun u => u.time = some tm) :=
        List.mem_filter.mpr ⟨ht, by simp [htime]⟩
      cases hfl : tasks.filter (fun u => u.time = some tm) with
      | nil => rw [hfl] at htf; simp at htf
      | cons u us =>
        have hu : u ∈ tasks.filter (fun v => v.time = some tm) := by
          rw [hfl]
          exact List.mem_cons_self _ _
        rcases List.mem_filter.mp hu with ⟨hu1, hu2⟩
        have hur : u.result = some r := hsucc u hu1 (by simpa using hu2)
        simp [List.filterMap_cons, hur]
    · intro u hu hune
      unfold raceCancelled
      rw [hmin]
      dsimp only
      exact List.mem_filter.mpr ⟨hu, by simpa using hune⟩

/-- C3 witness: the amended behaviour on a two-task scenario — a unique
first completion with a non-none result is returned, and the slower task
is cancelled. -/
theorem C3_w :
    race [⟨some 1, some "fast"⟩, ⟨some 5, some "slow"⟩] 10 = some "fast" ∧
    (⟨some 5, some "slow"⟩ : RTask String) ∈
      raceCancelled [⟨some 1, some "fast"⟩, ⟨some 5, some "slow"⟩] 10 := by
  have h := (C3_thm [⟨some 1, some "fast"⟩, ⟨some 5, some "slow"⟩] 10).2
    ⟨some 1, some "fast"⟩ (by decide) 1 rfl (by decide)
    (by
      intro u hu um hum
      rcases List.mem_cons.mp hu with hu | hu
      · rw [hu] at hum; simp at hum; omega
      · rcases List.mem_cons.mp hu with hu | hu
        · rw [hu] at hum; simp at hum; omega
        · simp at hu)
  refine ⟨h.2.1 "fast" ?_, h.2.2 ⟨some 5, some "slow"⟩ (by decide) (by decide)⟩
  intro u hu hut
  rcases List.mem_cons.mp hu with hu | hu
  · rw [hu]
  · rcases List.mem_cons.mp hu with hu | hu
    · rw [hu] at hut; simp at hut
    · simp at hu

/-! ## C4 — depthReached vs requested depth -/

/-- C4 counterexample: a request for depth 12 on the starting position,
with no native engine and all remote services failing, falls to the backup
stage, whose opening-book hit reports the fixed `depth_reached = 15 > 12`
(the non-book heuristic similarly reports a fixed 12). -/
theorem C4_cex :
    ((getBestMove parse0 cfg0 none onlineFail none b0 (fun _ => 1)
        startposLegalMoves 0 0 ⟨startposFen, 12, "stockfish"⟩).1).map
        MoveResult.depth_reached = .ok 15 ∧ 12 < 15 := by decide

/-- C4 (amended): on the engine paths (forced local attempt, the remote
race, the plain native attempt) `depthReached ≤ requested depth`
(`min(depth, 12)` or `depth`); the backup stage instead reports the fixed
depths 15 (book) or 12 and the random engine reports 1, regardless of the
requested depth, so the bound fails exactly when the backup serves a
request with depth below those constants. -/
theorem C4_thm :
    (∀ (cfg : List (String × EngineVal)) (em : Option EngineInfo)
        (p : OnlineParams) (depth : Nat) (r : MoveResult),
        (tryOnlineStockfish cfg em p depth).1 = some r →
          r.depth_reached ≤ depth) ∧
    (∀ (cfg : List (String × EngineVal)) (em : Option EngineInfo)
        (p : OnlineParams) (nat : Option EngineInfo) (fen : String)
        (b : Board) (jitter : Move → Int) (legal : List Move) (depth : Nat)
        (r : MoveResult),
        (analyzeWithStockfish cfg em p nat fen b jitter legal depth).1 =
            .ok r →
          r.depth_reached ≤ depth ∨
            (r.engine_used = "EMERGENCY_BACKUP - APIs_FAILED" ∧
              (r.depth_reached = 15 ∨ r.depth_reached = 12))) ∧
    (∀ (fen : String) (b : Board) (jitter : Move → Int) (legal : List Move)
        (r : MoveResult),
        analyzeWithBackup fen b jitter legal = .ok r →
          r.depth_reached = 15 ∨ r.depth_reached = 12) ∧
    (∀ (ci : Nat) (re : Int) (legal : List Move) (r : MoveResult),
        analyzeWithRandom ci re legal = .ok r → r.depth_reached = 1) := by
  refine ⟨fun cfg em p depth r h => tryOnlineStockfish_depth cfg em p depth r h,
    fun cfg em p nat fen b jitter legal depth r h =>
      analyzeWithStockfish_depth cfg em p nat fen b jitter legal depth r h,
    fun fen b jitter legal r h => analyzeWithBackup_depth fen b jitter legal r h,
    ?_⟩
  intro ci re legal r h
  unfold analyzeWithRandom at h
  by_cases hl : legal.isEmpty
  · rw [if_pos hl] at h; simp at h
  · rw [if_neg hl] at h
    simp only [Except.ok.injEq] at h
    rw [← h]

/-- C4 witness: the depth bound of the remote race, instantiated on the
concrete result of a successful Lichess response at depth 9. -/
theorem C4_w :
    (⟨"e7e5", ⟨some 20, none⟩, "lichess_cloud", 9,
      ["e7e5", "g1f3"]⟩ : MoveResult).depth_reached ≤ 9 :=
  C4_thm.1 cfg0 none online0 9
    ⟨"e7e5", ⟨some 20, none⟩, "lichess_cloud", 9, ["e7e5", "g1f3"]⟩
    (by decide)

/-! ## C5 — mutual exclusion of cp and mate -/

/-- C5 counterexample: a Lichess cloud response for a mating line carries
`mate` but no `cp` key; the code's `{"cp": pv.get("cp", 0), "mate":
pv.get("mate", None)}` then produces `cp = 0` *and* `mate = 3`, both
non-null, violating exactly-one-of. -/
theorem C5_cex :
    (tryLichess lichessMate 10).map MoveResult.eval =
      some ⟨some 0, some 3⟩ ∧
    ¬ exactlyOneCM ⟨some 0, some 3⟩ := by decide

/-- C5 (amended): every path except the Lichess adapter satisfies
exactly-one-of `{cp, mate}`: the local-engine score extraction, the
ChessDB and stockfish.online adapters, the backup heuristic and the random
engine.  The Lichess adapter always sets `cp` (defaulting the missing key
to 0) and passes `mate` through, so its result satisfies exactly-one-of
precisely when the response carried no mate value. -/
theorem C5_thm :
    (∀ s : Option Score, exactlyOneCM (evalOfScore s)) ∧
    (∀ (resp : Option ChessdbData) (depth : Nat) (r : MoveResult),
        tryChessdb resp depth = some r → exactlyOneCM r.eval) ∧
    (∀ (resp : Option SfoData) (depth : Nat) (r : MoveResult),
        tryStockfishOnline resp depth = some r → exactlyOneCM r.eval) ∧
    (∀ (fen : String) (b : Board) (jitter : Move → Int) (legal : List Move)
        (r : MoveResult),
        analyzeWithBackup fen b jitter legal = .ok r →
          exactlyOneCM r.eval) ∧
    (∀ (ci : Nat) (re : Int) (legal : List Move) (r : MoveResult),
        analyzeWithRandom ci re legal = .ok r → exactlyOneCM r.eval) ∧
    (∀ (resp : Option LichessData) (depth : Nat) (r : MoveResult),
        tryLichess resp depth = some r →
          r.eval.cp.isSome ∧ (exactlyOneCM r.eval ↔ r.eval.mate = none)) := by
  refine ⟨evalOfScore_exactlyOne, ?_, ?_,
    fun fen b jitter legal r h => analyzeWithBackup_eval fen b jitter legal r h,
    ?_, ?_⟩
  · intro resp depth r h
    rcases tryChessdb_inv resp depth r h with ⟨data, pvs, raw, rest, _, _, _, _, hr⟩
    rw [hr]
    exact Or.inl (by simp)
  · intro resp depth r h
    rcases tryStockfishOnline_inv resp depth r h with ⟨data, bm, _, _, _, hr⟩
    rw [hr]
    exact Or.inl (by simp)
  · intro ci re legal r h
    unfold analyzeWithRandom at h
    by_cases hl : legal.isEmpty
    · rw [if_pos hl] at h; simp at h
    · rw [if_neg hl] at h
      simp only [Except.ok.injEq] at h
      rw [← h]
      exact Or.inl (by simp)
  · intro resp depth r h
    rcases tryLichess_inv resp depth r h with
      ⟨data, pv, mstr, raw, rest, _, _, _, _, _, hr⟩
    rw [hr]
    exact ⟨by simp, exactlyOneCM_some_left _ _⟩

/-- C5 witness: the exactly-one invariant on a concrete mate score and a
concrete ChessDB result. -/
theorem C5_w :
    exactlyOneCM (evalOfScore (some (.mate 2))) ∧
    exactlyOneCM (⟨some 33, none⟩ : EvalCM) :=
  ⟨C5_thm.1 (some (.mate 2)),
    C5_thm.2.1 (some ⟨some "d2d4 d7d5", some 33⟩) 8
      ⟨"d2d4", ⟨some 33, none⟩, "chessdb", 8, ["d2d4", "d7d5"]⟩
      (by decide)⟩

/-! ## C6 — the heuristic fallback's contract -/

/-- C6: `analyze_with_backup` returns a move whenever a legal move exists,
raises exactly `No legal moves available` when none does, and has no other
failure mode.  The hypothesis `hbook` records the chess-domain fact that
each of the eight opening-book positions has legal moves (the book lookup
precedes the legal-move check in the source). -/
theorem C6_thm (fen : String) (b : Board) (jitter : Move → Int)
    (legal : List Move) (hbook : lookupBook fen ≠ none → legal ≠ []) :
    (legal ≠ [] → ∃ r, analyzeWithBackup fen b jitter legal = .ok r) ∧
    (legal = [] →
        analyzeWithBackup fen b jitter legal = .error .noLegalMoves) ∧
    (∀ e, analyzeWithBackup fen b jitter legal = .error e →
        e = .noLegalMoves) := by
  refine ⟨fun h => analyzeWithBackup_ok fen b jitter legal h, ?_,
    fun e h => analyzeWithBackup_error fen b jitter legal e h⟩
  intro h
  subst h
  have hb : lookupBook fen = none := by
    by_contra hc
    exact hbook hc rfl
  unfold analyzeWithBackup
  rw [hb]
  rfl

/-- C6 witness: on a bare-kings position record (not in the book) the
fallback succeeds with one legal move and fails with `NoLegalMoves` on an
empty move list. -/
theorem C6_w :
    (∃ r, analyzeWithBackup "8/8/8/8/8/8/k7/7K w - - 0 1" b0 (fun _ => 1)
        [⟨7, 15, none⟩] = .ok r) ∧
    analyzeWithBackup "8/8/8/8/8/8/k7/7K w - - 0 1" b0 (fun _ => 1) [] =
      .error .noLegalMoves :=
  ⟨(C6_thm "8/8/8/8/8/8/k7/7K w - - 0 1" b0 (fun _ => 1) [⟨7, 15, none⟩]
      (fun _ => by simp)).1 (by simp),
    (C6_thm "8/8/8/8/8/8/k7/7K w - - 0 1" b0 (fun _ => 1) []
      (fun h => absurd (by decide) h)).2.1 rfl⟩

/-! ## C7 — the move normalizer -/

/-- C7 counterexample: on `"bestmove xyz"` the normalizer returns the
second token `"xyz"` *without* validating it — a 3-character return value
violating the claimed 4-5 character
`<file><rank><file><rank>[promotion]` grammar. -/
theorem C7_cex :
    cleanMoveFormat "bestmove xyz" = "xyz" ∧
    bareFormatB "xyz" = false ∧ ("xyz" : String).length = 3 := by decide

/-- C7 (amended): the three cited examples hold
(`"bestmove e2e4 ponder e7e5" ↦ "e2e4"`, `"e7e8q" ↦ "e7e8q"`, `"" ↦`
failure), and every non-empty return value on input *not* prefixed by
`"bestmove "` is the stripped input and passes the code's shape check —
4-5 characters with letter, digit, letter, digit at positions 1-4 (looser
than the claimed grammar: files/ranks are not range-checked and the fifth
character is unconstrained).  `"bestmove "`-prefixed input returns the
second whitespace token unvalidated. -/
theorem C7_thm :
    cleanMoveFormat "bestmove e2e4 ponder e7e5" = "e2e4" ∧
    cleanMoveFormat "e7e8q" = "e7e8q" ∧
    cleanMoveFormat "" = "" ∧
    (∀ s : String, pyStartsWith "bestmove " s = false →
        cleanMoveFormat s ≠ "" →
          cleanMoveFormat s = bareClean (pyStrip s) ∧
          bareFormatB (cleanMoveFormat s) = true) := by
  refine ⟨by decide, by decide, by decide, ?_⟩
  intro s hns h
  exact cleanMoveFormat_bare s hns h

/-- C7 witness: the shape guarantee applied at the concrete bare token
`"a1b2"`. -/
theorem C7_w :
    bareFormatB (cleanMoveFormat "a1b2") = true :=
  (C7_thm.2.2.2 "a1b2" (by decide) (by decide)).2

/-! ## C8 — malformed positions are rejected before any backend runs -/

/-- C8: when FEN validation fails (`chess.Board(fen)` raises
`ValueError`, modelled by the `parse` oracle returning `none`), both
endpoints surface the client error `Invalid FEN` immediately:
`get_best_move` returns HTTP 400 having invoked no backend adapter (empty
call log), and `get_ensemble_analysis` likewise fails before its
collection loop.  There is no retry construct on this path. -/
theorem C8_thm (parse : String → Option String)
    (cfg : List (String × EngineVal)) (em : Option EngineInfo)
    (p : OnlineParams) (nat : Option EngineInfo) (b : Board)
    (jitter : Move → Int) (legal : List Move) (ci : Nat) (re : Int)
    (req : MoveRequest) (ereq : EnsembleRequest)
    (h1 : parse req.fen = none) (h2 : parse ereq.fen = none) :
    getBestMove parse cfg em p nat b jitter legal ci re req =
        (.error .invalidPosition, []) ∧
    getEnsemble parse cfg em p nat b jitter legal ci re ereq =
      .error .invalidPosition := by
  constructor
  · simp only [getBestMove]
    rw [h1]
  · simp only [getEnsemble]
    rw [h2]

/-- C8 witness: a malformed FEN against the fixture oracle. -/
theorem C8_w :
    getBestMove parse0 cfg0 none onlineFail none b0 (fun _ => 1)
        startposLegalMoves 0 0 ⟨"not-a-fen", 15, "stockfish"⟩ =
      (.error .invalidPosition, []) :=
  (C8_thm parse0 cfg0 none onlineFail none b0 (fun _ => 1)
    startposLegalMoves 0 0 ⟨"not-a-fen", 15, "stockfish"⟩
    ⟨"not-a-fen", ["stockfish"], 12⟩ (by decide) (by decide)).1

/-! ## C9 — reachability of `All engines failed` -/

/-- C9 counterexample: on the *starting position* (20 legal moves) with
the recognized backend name `"random"`, the per-engine call succeeds, but
the vote construction's attribute access on the returned dict raises
`AttributeError` (swallowed by the loop's handler): zero results are
collected and the ensemble surfaces `All engines failed` — refuting the
claimed unreachability even with a recognized name and legal moves
available. -/
theorem C9_cex :
    getEnsemble parse0 cfg0 none onlineFail none b0 (fun _ => 1)
        startposLegalMoves 0 0 ⟨startposFen, ["random"], 12⟩ =
      .error .allBackendsFailed ∧
    (lookupCfg cfg0 "random").isSome = true ∧
    "random" ∈ (⟨startposFen, ["random"], 12⟩ : EnsembleRequest).engines ∧
    startposLegalMoves ≠ [] := by
  refine ⟨by decide, by decide, by decide, by decide⟩

/-- C9 (amended): on a valid position the ensemble fails with
`All engines failed` exactly when its collection loop gathered zero
results — and the loop gathers zero results on *every* input, because the
vote construction performs attribute access on the plain dict
`get_best_move` returns (raising `AttributeError`, which the per-engine
handler swallows just like analysis failures).  Hence every valid-position
ensemble request fails with `All engines failed`, even when requested
names resolve to configured adapters and legal moves exist: the claimed
unreachability does not hold. -/
theorem C9_thm (parse : String → Option String)
    (cfg : List (String × EngineVal)) (em : Option EngineInfo)
    (p : OnlineParams) (nat : Option EngineInfo) (b : Board)
    (jitter : Move → Int) (legal : List Move) (ci : Nat) (re : Int)
    (req : EnsembleRequest) (f : String) (hp : parse req.fen = some f) :
    (getEnsemble parse cfg em p nat b jitter legal ci re req =
        .error .allBackendsFailed ↔
      collectEnsemble parse cfg em p nat b jitter legal ci re req.fen
        req.depth req.engines = []) ∧
    collectEnsemble parse cfg em p nat b jitter legal ci re req.fen
      req.depth req.engines = [] ∧
    getEnsemble parse cfg em p nat b jitter legal ci re req =
      .error .allBackendsFailed := by
  have hnil := collectEnsemble_eq_nil parse cfg em p nat b jitter legal ci re
    req.fen req.depth req.engines
  exact ⟨getEnsemble_fail_iff parse cfg em p nat b jitter legal ci re req f
      hp, hnil,
    (getEnsemble_fail_iff parse cfg em p nat b jitter legal ci re req f
      hp).mpr hnil⟩

/-- C9 witness: a stalemate-position ensemble request over both engine
names also collects nothing and fails with `All engines failed`. -/
theorem C9_w :
    getEnsemble parse0 cfg0 none onlineFail none b0 (fun _ => 1) [] 0 0
        ⟨stalemateFen, ["stockfish", "random"], 12⟩ =
      .error .allBackendsFailed :=
  (C9_thm parse0 cfg0 none onlineFail none b0 (fun _ => 1) [] 0 0
      ⟨stalemateFen, ["stockfish", "random"], 12⟩ stalemateFen
      (by decide)).2.2

/-! ## C10 — winning chances -/

/-- C10: `calculate_winning_chances` returns 100 on a positive mate, 0 on
a non-positive mate, 50 on a null cp, otherwise the one-decimal rounding
of `50 + (cp/100)*10` clamped into `[0, 100]`; in all cases the value lies
in `[0, 100]`. -/
theorem C10_thm (ev : EvalCM) :
    0 ≤ calculateWinningChances ev ∧ calculateWinningChances ev ≤ 100 ∧
    (∀ m : Int, ev.mate = some m → 0 < m →
        calculateWinningChances ev = 100) ∧
    (∀ m : Int, ev.mate = some m → ¬0 < m →
        calculateWinningChances ev = 0) ∧
    (ev.mate = none → ev.cp = none → calculateWinningChances ev = 50) ∧
    (∀ c : Int, ev.mate = none → ev.cp = some c →
        calculateWinningChances ev =
          max 0 (min 100 (pyRound1 (50 + ((c : ℚ) / 100) * 10)))) := by
  rcases ev with ⟨cp, mate⟩
  refine ⟨?_, ?_, ?_, ?_, ?_, ?_⟩
  · cases mate with
    | some m =>
      simp only [calculateWinningChances]
      by_cases hm : m > 0
      · rw [if_pos hm]; norm_num
      · rw [if_neg hm]
    | none =>
      cases cp with
      | none => norm_num [calculateWinningChances]
      | some c =>
        simp only [calculateWinningChances]
        exact le_max_left _ _
  · cases mate with
    | some m =>
      simp only [calculateWinningChances]
      by_cases hm : m > 0
      · rw [if_pos hm]
      · rw [if_neg hm]; norm_num
    | none =>
      cases cp with
      | none => norm_num [calculateWinningChances]
      | some c =>
        simp only [calculateWinningChances]
        exact max_le (by norm_num) (min_le_left _ _)
  · intro m hm hpos
    simp only at hm
    subst hm
    simp only [calculateWinningChances]
    rw [if_pos hpos]
  · intro m hm hpos
    simp only at hm
    subst hm
    simp only [calculateWinningChances]
    rw [if_neg hpos]
  · intro hm hc
    simp only at hm hc
    subst hm
    subst hc
    rfl
  · intro c hm hc
    simp only at hm hc
    subst hm
    subst hc
    rfl

/-- C10 witness: a cp-only evaluation of +300 clamps to 80.0, within
range. -/
theorem C10_w :
    0 ≤ calculateWinningChances ⟨some 300, none⟩ ∧
    calculateWinningChances ⟨some 300, none⟩ =
      max 0 (min 100 (pyRound1 (50 + ((300 : ℚ) / 100) * 10))) :=
  ⟨(C10_thm ⟨some 300, none⟩).1,
    (C10_thm ⟨some 300, none⟩).2.2.2.2.2 300 rfl rfl⟩

end ChessApi
